import Mathlib

/-!
# scriptDB.js: the friends database over an asynchronous record store

A shallow embedding of `src/scriptDB.js`.  The script opens the database
"MyDatabase" at version 1, creates the object store "friends" in the upgrade
handler, keeps the connection in the global `window.db`, and offers four
operations (`addFriend`, `getAllFriends`, `getFriendById`, `deleteFriend`), each
of which checks the global, opens one transaction, issues one request and
attaches callbacks to it.

The script is modelled by explicit state passing over a `World`: the global
`window.db`, the console, the transactions opened so far, the queue of requests
that the engine has not yet completed, the engine's copy of the database and the
clock read by `new Date()`.  Closures assigned to `onsuccess` / `onerror` are
represented by the constructors of `Callback` and executed by `runCallback`.
The record store engine itself is not part of the script; its behaviour is
modelled separately and marked as such.

Arguments are typed as the operation API of the specification types them: a
name is a string, an age is a number, an id is an integer, a timestamp is a
natural number of milliseconds.  The script never computes with a number: it
carries it to the store and back and interpolates it into template strings.
How a number is converted to text inside a template string is the host's
business, not the script's; a console line printed from such a template keeps
the number itself (`Piece.number`), and `render` gives its text for whatever
conversion the host applies.

The engine completes requests one at a time, oldest first: every transaction of
the script has the one store "friends" as its scope, and transactions with a
common scope take effect in the order in which they were opened.  Whether the
engine accepts or rejects a request is an input of the model (`requestDone`), so
a statement about an accepted request holds however the engine decides.
-/

namespace ScriptDB

/-! ## Data model -/

/-- Access mode requested for a transaction (second argument of `transaction`). -/
inductive Mode where
  | readonly
  | readwrite
deriving DecidableEq, Repr

/-- Exceptions raised by the engine, by name. -/
inductive DOMException where
  | NotFoundError
  | ConstraintError
  | DataError
  | ReadOnlyError
deriving DecidableEq, Repr

/-- A JS number.  A finite number is given by its exact value; every number the
script can receive is one of these values. -/
inductive JSNumber where
  | finite (value : Rat)
  | negativeZero
  | infinity (negative : Bool)
  | nan
deriving DecidableEq, Repr

instance (n : Nat) : OfNat JSNumber n := ⟨.finite n⟩

/-- The JS number that is the integer `k`. -/
def JSNumber.ofInt (k : Int) : JSNumber := .finite k

/-- A piece of a template string: literal text (or an interpolated string), or an
interpolated number, kept as the number it is. -/
inductive Piece where
  | text (s : String)
  | number (n : JSNumber)
deriving DecidableEq, Repr

/-- The text of a piece, given the host's conversion of numbers to text. -/
def Piece.render (numberToString : JSNumber → String) : Piece → String
  | .text s => s
  | .number n => numberToString n

/-- The text of a template string, given the host's conversion of numbers to text. -/
def render (numberToString : JSNumber → String) (pieces : List Piece) : String :=
  String.join (pieces.map (Piece.render numberToString))

/-- The object literal handed to `add`: the fields `name`, `age`, `added`, and the
key field `id`, which an object literal may or may not carry. -/
structure FriendObject where
  id : Option Int
  name : String
  age : JSNumber
  added : Nat
deriving DecidableEq, Repr

/-- A record as persisted in the store "friends": `{ id, name, age, added }`. -/
structure Friend where
  id : Int
  name : String
  age : JSNumber
  added : Nat
deriving DecidableEq, Repr

/-- The closures the script assigns to `request.onsuccess` / `request.onerror`,
one constructor per function literal, with its captured variables. -/
inductive Callback where
  | addFriend_onsuccess (name : String)
  | addFriend_onerror (name : String)
  | getAllFriends_onsuccess
  | getAllFriends_onerror
  | getFriendById_onsuccess (id : Int)
  | deleteFriend_onsuccess (id : Int)
  | deleteFriend_onerror (id : Int)
deriving DecidableEq, Repr

/-- The request sent to an object store. -/
inductive Operation where
  | add (value : FriendObject)
  | getAll
  | get (key : Int)
  | delete (key : Int)
deriving DecidableEq, Repr

/-- The value found in `event.target.result` by a success callback. -/
inductive Result where
  | key (k : Int)
  | records (all : List Friend)
  | record (found : Option Friend)
  | undefined
deriving DecidableEq, Repr

/-- A transaction: its number, the object stores in its scope, and its mode. -/
structure Transaction where
  id : Nat
  scope : List String
  mode : Mode
deriving DecidableEq, Repr

/-- A request placed with the engine and not yet completed, with the callbacks
attached to it so far. -/
structure Request where
  transaction : Transaction
  store : String
  operation : Operation
  onsuccess : Option Callback
  onerror : Option Callback
deriving DecidableEq, Repr

/-- An object store: its schema, its key generator and its records in key order. -/
structure ObjectStore where
  name : String
  keyPath : String
  autoIncrement : Bool
  keyGenerator : Int
  records : List Friend
deriving DecidableEq, Repr

/-- The engine's copy of the database "MyDatabase"; version 0 with no object
store stands for a database that does not exist yet. -/
structure Database where
  version : Nat
  objectStores : List ObjectStore
deriving DecidableEq, Repr

/-- The connection object delivered by a successful open (`event.target.result`). -/
structure IDBDatabase where
  name : String
  version : Nat
deriving DecidableEq, Repr

/-- A handle on an object store inside a transaction (`transaction.objectStore`). -/
structure IDBObjectStore where
  transaction : Transaction
  name : String
deriving DecidableEq, Repr

/-- One line written to the console: `console.log` or `console.error` of a string,
`console.log` of a string and an array, the same two of a template string that
interpolates numbers, or the host's report of an uncaught exception. -/
inductive ConsoleLine where
  | log (text : String)
  | logList (text : String) (items : List Friend)
  | error (text : String)
  | uncaught (e : DOMException)
  | logTemplate (pieces : List Piece)
  | errorTemplate (pieces : List Piece)
deriving DecidableEq, Repr

/-- The state the script runs in. -/
structure World where
  database : Database
  openPending : Bool
  windowDb : Option IDBDatabase
  transactions : List Transaction
  pending : List Request
  console : List ConsoleLine
  clock : Nat
deriving DecidableEq, Repr

/-- How a function body ends: it returns, or an exception escapes it.  Either way
the effects made up to that point stay in the world. -/
inductive Completion where
  | normal (w : World)
  | throw (e : DOMException) (w : World)
deriving DecidableEq, Repr

/-- The world a completion leaves behind. -/
def Completion.world : Completion → World
  | .normal w => w
  | .throw _ w => w

/-- Append a `console.log` line. -/
def World.consoleLog (w : World) (text : String) : World :=
  { w with console := w.console ++ [ConsoleLine.log text] }

/-- Append a `console.log(text, array)` line. -/
def World.consoleLogList (w : World) (text : String) (items : List Friend) : World :=
  { w with console := w.console ++ [ConsoleLine.logList text items] }

/-- Append a `console.error` line. -/
def World.consoleError (w : World) (text : String) : World :=
  { w with console := w.console ++ [ConsoleLine.error text] }

/-- Append a `console.log` line whose template string interpolates numbers. -/
def World.consoleLogTemplate (w : World) (pieces : List Piece) : World :=
  { w with console := w.console ++ [ConsoleLine.logTemplate pieces] }

/-- Append a `console.error` line whose template string interpolates numbers. -/
def World.consoleErrorTemplate (w : World) (pieces : List Piece) : World :=
  { w with console := w.console ++ [ConsoleLine.errorTemplate pieces] }

/-- An exception nobody caught is reported on the console by the host. -/
def World.uncaught (w : World) (e : DOMException) : World :=
  { w with console := w.console ++ [ConsoleLine.uncaught e] }

/-- The world after a completion reaches the host: an escaped exception is
reported. -/
def Completion.settle : Completion → World
  | .normal w => w
  | .throw e w => w.uncaught e

/-! ## The record store engine -/

/-- Modelled from the spec: the record store engine (an external collaborator,
absent from src/).  Look an object store up by name. -/
def Database.store? (db : Database) (name : String) : Option ObjectStore :=
  db.objectStores.find? (fun s => s.name == name)

/-- Modelled from the spec: the record store engine.  Replace the object store
called `name`. -/
def replaceStore (name : String) (s : ObjectStore) : List ObjectStore → List ObjectStore
  | [] => []
  | t :: ts => if t.name == name then s :: ts else t :: replaceStore name s ts

/-- Modelled from the spec: the record store engine.  The database with the
object store called `name` replaced. -/
def Database.setStore (db : Database) (name : String) (s : ObjectStore) : Database :=
  { db with objectStores := replaceStore name s db.objectStores }

/-- Modelled from the spec: the record store engine.  Records are kept in key
order; a new record goes before the first record with a larger key. -/
def insertRecord (r : Friend) : List Friend → List Friend
  | [] => [r]
  | x :: xs => if r.id < x.id then r :: x :: xs else x :: insertRecord r xs

/-- Modelled from the spec: the record store engine.  What an object store does
with an accepted request.  `add` stores a copy of the value under the key found
in its `id` field, or, when it has none, under the next number of the key
generator ("a monotonic counter owned by the collection, incremented per
insert"), and refuses a key already present; `getAll` returns every record in
key order; `get` returns the record with the key, or nothing; `delete` removes
the record with the key, if any. -/
def ObjectStore.execute (s : ObjectStore) : Operation → Except DOMException (ObjectStore × Result)
  | .add value =>
    match value.id with
    | some k =>
      if s.records.any (fun r => r.id == k) then .error .ConstraintError
      else .ok ({ s with
                  records := insertRecord ⟨k, value.name, value.age, value.added⟩ s.records,
                  keyGenerator := if s.keyGenerator ≤ k then k + 1 else s.keyGenerator },
                .key k)
    | none =>
      if s.autoIncrement then
        .ok ({ s with
               records := insertRecord ⟨s.keyGenerator, value.name, value.age, value.added⟩ s.records,
               keyGenerator := s.keyGenerator + 1 },
             .key s.keyGenerator)
      else .error .DataError
  | .getAll => .ok (s, .records s.records)
  | .get k => .ok (s, .record (s.records.find? (fun r => r.id == k)))
  | .delete k => .ok ({ s with records := s.records.filter (fun r => r.id != k) }, .undefined)

/-- Modelled from the spec: the record store engine.  Execute a request against
the object store it names. -/
def Database.execute (db : Database) (store : String) (op : Operation) :
    Except DOMException (Database × Result) :=
  match db.store? store with
  | none => .error .NotFoundError
  | some s =>
    match s.execute op with
    | .error e => .error e
    | .ok (s1, res) => .ok (db.setStore store s1, res)

/-- Modelled from the spec: the record store engine.  `db.createObjectStore(name,
{ keyPath, autoIncrement })`: adds an empty object store whose key generator
starts at 1; creating a store that exists is an error. -/
def IDBDatabase.createObjectStore (name keyPath : String) (autoIncrement : Bool) (w : World) :
    Except DOMException World :=
  match w.database.store? name with
  | some _ => .error .ConstraintError
  | none =>
    .ok { w with database :=
            { w.database with
              objectStores := w.database.objectStores ++ [⟨name, keyPath, autoIncrement, 1, []⟩] } }

/-- Modelled from the spec: the record store engine.  `db.transaction(storeName,
mode)`: opens a new transaction whose scope is that one store; naming a store
the database does not have is an error. -/
def IDBDatabase.transaction (storeName : String) (mode : Mode) (w : World) :
    Except DOMException (Transaction × World) :=
  match w.database.store? storeName with
  | none => .error .NotFoundError
  | some _ =>
    let tx : Transaction := ⟨w.transactions.length, [storeName], mode⟩
    .ok (tx, { w with transactions := w.transactions ++ [tx] })

/-- Modelled from the spec: the record store engine.  `transaction.objectStore(name)`:
a handle on a store in the transaction's scope. -/
def Transaction.objectStore (tx : Transaction) (name : String) : Except DOMException IDBObjectStore :=
  if name ∈ tx.scope then .ok ⟨tx, name⟩ else .error .NotFoundError

/-- Modelled from the spec: the record store engine.  Place a request, with no
callback attached yet, at the end of the queue. -/
def IDBObjectStore.request (h : IDBObjectStore) (op : Operation) (w : World) : World :=
  { w with pending := w.pending ++ [⟨h.transaction, h.name, op, none, none⟩] }

/-- Modelled from the spec: the record store engine.  `store.add(value)`: refused
at once in a read-only transaction, or when the value has no key and the store
no key generator. -/
def IDBObjectStore.add (h : IDBObjectStore) (value : FriendObject) (w : World) :
    Except DOMException World :=
  if h.transaction.mode = Mode.readonly then .error .ReadOnlyError
  else
    match w.database.store? h.name with
    | none => .error .NotFoundError
    | some s =>
      if value.id.isNone && !s.autoIncrement then .error .DataError
      else .ok (h.request (.add value) w)

/-- Modelled from the spec: the record store engine.  `store.getAll()`. -/
def IDBObjectStore.getAll (h : IDBObjectStore) (w : World) : Except DOMException World :=
  .ok (h.request .getAll w)

/-- Modelled from the spec: the record store engine.  `store.get(key)`. -/
def IDBObjectStore.get (h : IDBObjectStore) (key : Int) (w : World) : Except DOMException World :=
  .ok (h.request (.get key) w)

/-- Modelled from the spec: the record store engine.  `store.delete(key)`: refused
at once in a read-only transaction. -/
def IDBObjectStore.delete (h : IDBObjectStore) (key : Int) (w : World) :
    Except DOMException World :=
  if h.transaction.mode = Mode.readonly then .error .ReadOnlyError
  else .ok (h.request (.delete key) w)

/-- Apply `f` to the last element of a list: the request most recently placed. -/
def updateLast (f : Request → Request) : List Request → List Request
  | [] => []
  | [r] => [f r]
  | r :: r1 :: rs => r :: updateLast f (r1 :: rs)

/-- The assignment `request.onsuccess = cb` on the request just placed. -/
def World.setOnsuccess (cb : Callback) (w : World) : World :=
  { w with pending := updateLast (fun r => { r with onsuccess := some cb }) w.pending }

/-- The assignment `request.onerror = cb` on the request just placed. -/
def World.setOnerror (cb : Callback) (w : World) : World :=
  { w with pending := updateLast (fun r => { r with onerror := some cb }) w.pending }

/-! ## The script -/

/-- The text of the not-ready report. -/
def notReadyMessage : String := "База данных еще не открыта!"

/-- The name of the object store. -/
def friends : String := "friends"

/-- Function `addFriend(name, age)`, lines 54-89. -/
def addFriend (name : String) (age : JSNumber) (w : World) : Completion :=
  if w.windowDb.isNone then
    .normal (w.consoleError notReadyMessage)
  else
    match IDBDatabase.transaction friends .readwrite w with
    | .error e => .throw e w
    | .ok (transaction, w1) =>
      match transaction.objectStore friends with
      | .error e => .throw e w1
      | .ok friendsStore =>
        let friend : FriendObject := { id := none, name := name, age := age, added := w1.clock }
        match friendsStore.add friend w1 with
        | .error e => .throw e w1
        | .ok w2 =>
          let w3 := w2.setOnsuccess (.addFriend_onsuccess name)
          let w4 := w3.setOnerror (.addFriend_onerror name)
          .normal w4

/-- Function `getAllFriends()`, lines 93-120. -/
def getAllFriends (w : World) : Completion :=
  if w.windowDb.isNone then
    .normal (w.consoleError notReadyMessage)
  else
    match IDBDatabase.transaction friends .readonly w with
    | .error e => .throw e w
    | .ok (transaction, w1) =>
      match transaction.objectStore friends with
      | .error e => .throw e w1
      | .ok friendsStore =>
        match friendsStore.getAll w1 with
        | .error e => .throw e w1
        | .ok w2 =>
          let w3 := w2.setOnsuccess .getAllFriends_onsuccess
          let w4 := w3.setOnerror .getAllFriends_onerror
          .normal w4

/-- Function `getFriendById(id)`, lines 124-144.  Only `onsuccess` is assigned. -/
def getFriendById (id : Int) (w : World) : Completion :=
  if w.windowDb.isNone then
    .normal (w.consoleError notReadyMessage)
  else
    match IDBDatabase.transaction friends .readonly w with
    | .error e => .throw e w
    | .ok (transaction, w1) =>
      match transaction.objectStore friends with
      | .error e => .throw e w1
      | .ok friendsStore =>
        match friendsStore.get id w1 with
        | .error e => .throw e w1
        | .ok w2 =>
          let w3 := w2.setOnsuccess (.getFriendById_onsuccess id)
          .normal w3

/-- Function `deleteFriend(id)`, lines 148-169. -/
def deleteFriend (id : Int) (w : World) : Completion :=
  if w.windowDb.isNone then
    .normal (w.consoleError notReadyMessage)
  else
    match IDBDatabase.transaction friends .readwrite w with
    | .error e => .throw e w
    | .ok (transaction, w1) =>
      match transaction.objectStore friends with
      | .error e => .throw e w1
      | .ok friendsStore =>
        match friendsStore.delete id w1 with
        | .error e => .throw e w1
        | .ok w2 =>
          let w3 := w2.setOnsuccess (.deleteFriend_onsuccess id)
          let w4 := w3.setOnerror (.deleteFriend_onerror id)
          .normal w4

/-- The array a `getAll` success callback reads from `event.target.result`. -/
def Result.allFriends : Result → List Friend
  | .records all => all
  | _ => []

/-- The value a `get` success callback reads from `event.target.result`: a record,
or `undefined`. -/
def Result.friend : Result → Option Friend
  | .record found => found
  | _ => none

/-- The template string printed for each friend by `allFriends.forEach`, line 113. -/
def friendLine (friend : Friend) : List Piece :=
  [.text "ID: ", .number (.ofInt friend.id), .text ", Имя: ", .text friend.name,
    .text ", Возраст: ", .number friend.age]

/-- The text printed when a friend has been added, line 82. -/
def addedMessage (name : String) : String :=
  "Друг " ++ name ++ " добавлен!"

/-- The text printed when adding a friend failed, line 87. -/
def addFailedMessage (name : String) : String :=
  "Не удалось добавить друга " ++ name

/-- The text printed when reading all friends failed, line 118. -/
def readFailedMessage : String :=
  "Не удалось получить данные"

/-- The template string printed when a friend was found, line 139. -/
def foundMessage (friend : Friend) : List Piece :=
  [.text "Найден друг: ", .text friend.name, .text ", возраст: ", .number friend.age]

/-- The template string printed when no friend was found, line 141. -/
def notFoundMessage (id : Int) : List Piece :=
  [.text "Друг с ID=", .number (.ofInt id), .text " не найден"]

/-- The template string printed when a friend has been deleted, line 161. -/
def deletedMessage (id : Int) : List Piece :=
  [.text "Друг с ID=", .number (.ofInt id), .text " удален"]

/-- The template string printed when deleting a friend failed, line 167. -/
def deleteFailedMessage (id : Int) : List Piece :=
  [.text "Не удалось удалить друга с ID=", .number (.ofInt id)]

/-- The bodies of the request callbacks (lines 81-88, 106-119, 136-143, 160-168),
applied to the result of the request. -/
def runCallback : Callback → Result → World → Completion
  | .addFriend_onsuccess name, _, w =>
    .normal (w.consoleLog (addedMessage name))
  | .addFriend_onerror name, _, w =>
    .normal (w.consoleError (addFailedMessage name))
  | .getAllFriends_onsuccess, result, w =>
    let allFriends := result.allFriends
    let w1 := w.consoleLogList "Все друзья в базе:" allFriends
    .normal (allFriends.foldl (fun v friend => v.consoleLogTemplate (friendLine friend)) w1)
  | .getAllFriends_onerror, _, w =>
    .normal (w.consoleError readFailedMessage)
  | .getFriendById_onsuccess id, result, w =>
    match result.friend with
    | some friend => .normal (w.consoleLogTemplate (foundMessage friend))
    | none => .normal (w.consoleLogTemplate (notFoundMessage id))
  | .deleteFriend_onsuccess id, _, w =>
    getAllFriends (w.consoleLogTemplate (deletedMessage id))
  | .deleteFriend_onerror id, _, w =>
    .normal (w.consoleErrorTemplate (deleteFailedMessage id))

/-- Handler `openRequest.onupgradeneeded`, lines 13-26. -/
def openRequest_onupgradeneeded (w : World) : Completion :=
  match IDBDatabase.createObjectStore friends "id" true w with
  | .error e => .throw e w
  | .ok w1 => .normal (w1.consoleLog "Таблица 'friends' создана!")

/-- Handler `openRequest.onsuccess`, lines 31-43; `db` is `event.target.result`. -/
def openRequest_onsuccess (db : IDBDatabase) (w : World) : Completion :=
  let w1 := w.consoleLog "База данных открыта и готова к работе!"
  let w2 := { w1 with windowDb := some db }
  match addFriend "Анна" 25 w2 with
  | .throw e w3 => .throw e w3
  | .normal w3 => addFriend "Иван" 30 w3

/-- Handler `openRequest.onerror`, lines 48-50. -/
def openRequest_onerror (w : World) : World :=
  w.consoleError "Ой! Не удалось открыть базу данных"

/-- The name passed to `indexedDB.open`, line 6. -/
def databaseName : String := "MyDatabase"

/-- The version passed to `indexedDB.open`, line 6. -/
def schemaVersion : Nat := 1

/-- The world right after the script has been evaluated: the open request of
line 6 is under way, `window.db` is unset, nothing has been printed. -/
def boot (db : Database) (clock : Nat) : World :=
  { database := db, openPending := true, windowDb := none, transactions := [],
    pending := [], console := [], clock := clock }

/-- A database that does not exist yet. -/
def freshDatabase : Database := { version := 0, objectStores := [] }

/-! ## The engine completing requests -/

/-- Modelled from the spec: the record store engine.  The open request of line 6
completes, once.  It fails when the engine cannot open the database or the stored
version is newer than the requested one; otherwise, when the stored version is
older, the upgrade handler runs first (an exception in it undoes the upgrade and
fails the open), and then the success handler runs. -/
def openDone (engineOk : Bool) (w : World) : World :=
  if !w.openPending then w
  else
    let w0 := { w with openPending := false }
    if !engineOk || decide (schemaVersion < w0.database.version) then openRequest_onerror w0
    else if w0.database.version < schemaVersion then
      match openRequest_onupgradeneeded
          { w0 with database := { w0.database with version := schemaVersion } } with
      | .throw e w1 => openRequest_onerror ({ w1 with database := w0.database }.uncaught e)
      | .normal w1 => (openRequest_onsuccess ⟨databaseName, schemaVersion⟩ w1).settle
    else (openRequest_onsuccess ⟨databaseName, schemaVersion⟩ w0).settle

/-- Modelled from the spec: the record store engine.  Deliver the outcome of a
request to the callback attached for it, if any.  An exception escaping a
callback aborts the request's transaction: the database goes back to `before`. -/
def deliver (cb : Option Callback) (result : Result) (before : Database) (w : World) : World :=
  match cb with
  | none => w
  | some c =>
    match runCallback c result w with
    | .normal w1 => w1
    | .throw e w1 => { w1 with database := before }.uncaught e

/-- Modelled from the spec: the record store engine.  The oldest pending request
completes (transactions over the one store are served in the order they were
opened).  The engine either rejects it, which leaves the store as it was and
calls the failure callback, or executes it and calls the success callback with
the result. -/
def requestDone (engineOk : Bool) (w : World) : World :=
  match w.pending with
  | [] => w
  | r :: rest =>
    let w1 := { w with pending := rest }
    if engineOk then
      match w1.database.execute r.store r.operation with
      | .ok (db, result) => deliver r.onsuccess result w1.database { w1 with database := db }
      | .error _ => deliver r.onerror .undefined w1.database w1
    else deliver r.onerror .undefined w1.database w1

/-- A call of one of the four operations by the page. -/
inductive Call where
  | addFriend (name : String) (age : JSNumber)
  | getAllFriends
  | getFriendById (id : Int)
  | deleteFriend (id : Int)
deriving DecidableEq, Repr

/-- Run the called function. -/
def Call.perform : Call → World → Completion
  | .addFriend name age, w => ScriptDB.addFriend name age w
  | .getAllFriends, w => ScriptDB.getAllFriends w
  | .getFriendById id, w => ScriptDB.getFriendById id w
  | .deleteFriend id, w => ScriptDB.deleteFriend id w

/-- What can happen next: the engine completes the open request or the oldest
pending request (accepting or rejecting it), the page calls an operation, or
time passes. -/
inductive Event where
  | openDone (engineOk : Bool)
  | requestDone (engineOk : Bool)
  | call (c : Call)
  | tick (ms : Nat)
deriving DecidableEq, Repr

/-- One event. -/
def step (e : Event) (w : World) : World :=
  match e with
  | .openDone ok => openDone ok w
  | .requestDone ok => requestDone ok w
  | .call c => (c.perform w).settle
  | .tick ms => { w with clock := w.clock + ms }

/-- A sequence of events, oldest first. -/
def run (es : List Event) (w : World) : World :=
  es.foldl (fun v e => step e v) w

/-! ## Predicates and auxiliary definitions used in the statements -/

/-- The connection is open and `s` is the object store "friends" of the database,
which has a key generator. -/
def Open (w : World) (s : ObjectStore) : Prop :=
  w.windowDb.isSome = true ∧ w.database.store? friends = some s ∧ s.autoIncrement = true

instance (w : World) (s : ObjectStore) : Decidable (Open w s) := by
  unfold Open; infer_instance

/-- The transaction an operation opens in world `w`. -/
def nextTransaction (w : World) (mode : Mode) : Transaction :=
  ⟨w.transactions.length, [friends], mode⟩

/-- The world after an operation has opened its transaction and placed its
request with the callbacks `ok` and `err`. -/
def issued (w : World) (mode : Mode) (op : Operation) (ok err : Option Callback) : World :=
  { w with
    transactions := w.transactions ++ [nextTransaction w mode],
    pending := w.pending ++ [⟨nextTransaction w mode, friends, op, ok, err⟩] }

/-- The lines `getAllFriends` prints on success: the array, then one line per friend. -/
def listing (all : List Friend) : List ConsoleLine :=
  ConsoleLine.logList "Все друзья в базе:" all :: all.map (fun f => ConsoleLine.logTemplate (friendLine f))

/-- The access mode the operation table of the specification gives each operation. -/
def Call.specMode : Call → Mode
  | .addFriend _ _ => .readwrite
  | .getAllFriends => .readonly
  | .getFriendById _ => .readonly
  | .deleteFriend _ => .readwrite

/-- The one request the specification has each operation issue; `clock` is the
time of the call, stored in `added`. -/
def Call.specOperation (clock : Nat) : Call → Operation
  | .addFriend name age => .add ⟨none, name, age, clock⟩
  | .getAllFriends => .getAll
  | .getFriendById id => .get id
  | .deleteFriend id => .delete id

/-- The world of a first visit once the open request and the two example inserts
of lines 41-42 have completed. -/
def seededWorld : World :=
  run [.openDone true, .requestDone true, .requestDone true] (boot freshDatabase 0)

/-- The object store "friends" in `seededWorld`. -/
def seededStore : ObjectStore :=
  ⟨"friends", "id", true, 3, [⟨1, "Анна", 25, 0⟩, ⟨2, "Иван", 30, 0⟩]⟩

/-- The line `getFriendById(id)` prints on success, given the records of the store. -/
def lookupLine (id : Int) (records : List Friend) : ConsoleLine :=
  match records.find? (fun r => r.id == id) with
  | some friend => .logTemplate (foundMessage friend)
  | none => .logTemplate (notFoundMessage id)

/-- The store "friends" after `delete(id)`. -/
def afterDelete (id : Int) (s : ObjectStore) : ObjectStore :=
  { s with records := s.records.filter (fun r => r.id != id) }

/-- The store "friends" after an `add` of a value without `id`. -/
def afterAdd (name : String) (age : JSNumber) (added : Nat) (s : ObjectStore) : ObjectStore :=
  { s with records := insertRecord ⟨s.keyGenerator, name, age, added⟩ s.records,
           keyGenerator := s.keyGenerator + 1 }

/-- Events of a run that only inserts: calls of `addFriend`, requests served by the
engine, and clock ticks. -/
def Event.isInsert : Event → Bool
  | .call (.addFriend _ _) => true
  | .requestDone true => true
  | .tick _ => true
  | _ => false

/-- The arguments of the `addFriend` calls of a run, in call order. -/
def addCalls : List Event → List (String × JSNumber)
  | [] => []
  | .call (.addFriend name age) :: es => (name, age) :: addCalls es
  | _ :: es => addCalls es

/-- Number the calls `k`, `k + 1`, ... in order. -/
def numbered (k : Int) : List (String × JSNumber) → List (Int × String × JSNumber)
  | [] => []
  | c :: cs => (k, c.1, c.2) :: numbered (k + 1) cs

/-- The world in the middle of the success handler of a first open: the upgrade has
run, `window.db` has just been assigned, lines 41-42 have not run yet. -/
def firstOpenWorld (clock : Nat) : World :=
  { database := { version := 1, objectStores := [⟨"friends", "id", true, 1, []⟩] },
    openPending := false,
    windowDb := some ⟨"MyDatabase", 1⟩,
    transactions := [],
    pending := [],
    console := [.log "Таблица 'friends' создана!", .log "База данных открыта и готова к работе!"],
    clock := clock }

/-- The request `addFriend(c.1, c.2)` places. -/
def IsAddRequest (c : String × JSNumber) (r : Request) : Prop :=
  ∃ tx t, r = ⟨tx, friends, .add ⟨none, c.1, c.2, t⟩, some (.addFriend_onsuccess c.1),
    some (.addFriend_onerror c.1)⟩

/-- Invariant of an insert-only run: the calls in `done` have been stored under the
keys 1, 2, ... in call order, and the calls in `waiting` are the pending
requests, oldest first. -/
def InsertInv (w : World) (done waiting : List (String × JSNumber)) : Prop :=
  w.windowDb.isSome = true ∧
  ∃ s, w.database.store? friends = some s ∧ s.autoIncrement = true ∧
    s.records.map (fun r => (r.id, r.name, r.age)) = numbered 1 done ∧
    s.keyGenerator = 1 + done.length ∧
    List.Forall₂ IsAddRequest waiting w.pending

/-- Keys of a store are in strictly increasing order and below the key generator. -/
def StoreOk (s : ObjectStore) : Prop :=
  (s.records.map (fun r => r.id)).Pairwise (· < ·) ∧ ∀ r ∈ s.records, r.id < s.keyGenerator

/-- The database has the store "friends", with a key generator and well-ordered keys. -/
def Schema (db : Database) : Prop :=
  ∃ s, db.store? friends = some s ∧ s.autoIncrement = true ∧ StoreOk s

/-- What holds of every world the script can reach: either nothing has been created
and `window.db` is unset, or the database has its store "friends". -/
def WorldInv (w : World) : Prop :=
  (w.database.version = 0 ∧ w.database.objectStores = [] ∧ w.windowDb = none) ∨ Schema w.database

/-! ## Lemmas and theorems -/

theorem updateLast_concat (f : Request → Request) (l : List Request) (r : Request) :
    updateLast f (l ++ [r]) = l ++ [f r] := by
  induction l with
  | nil => rfl
  | cons a t ih =>
    cases t with
    | nil => rfl
    | cons b t2 => simpa [updateLast] using ih

theorem isNone_of_open {w : World} {s : ObjectStore} (h : Open w s) :
    w.windowDb.isNone = false := by
  obtain ⟨h1, -, -⟩ := h
  cases hw : w.windowDb <;> simp_all

theorem perform_notReady (c : Call) (w : World) (h : w.windowDb = none) :
    c.perform w = .normal (w.consoleError notReadyMessage) := by
  cases c <;> simp [Call.perform, addFriend, getAllFriends, getFriendById, deleteFriend, h]

theorem addFriend_open (name : String) (age : JSNumber) (w : World) (s : ObjectStore) (h : Open w s) :
    addFriend name age w = .normal (issued w .readwrite (.add ⟨none, name, age, w.clock⟩)
      (some (.addFriend_onsuccess name)) (some (.addFriend_onerror name))) := by
  have h0 := isNone_of_open h
  obtain ⟨-, h2, h3⟩ := h
  simp [addFriend, IDBDatabase.transaction, Transaction.objectStore, IDBObjectStore.add,
    IDBObjectStore.request, World.setOnsuccess, World.setOnerror, updateLast_concat, h0, h2, h3,
    issued, nextTransaction]

theorem getAllFriends_open (w : World) (s : ObjectStore) (h : Open w s) :
    getAllFriends w = .normal (issued w .readonly .getAll
      (some .getAllFriends_onsuccess) (some .getAllFriends_onerror)) := by
  have h0 := isNone_of_open h
  obtain ⟨-, h2, -⟩ := h
  simp [getAllFriends, IDBDatabase.transaction, Transaction.objectStore, IDBObjectStore.getAll,
    IDBObjectStore.request, World.setOnsuccess, World.setOnerror, updateLast_concat, h0, h2,
    issued, nextTransaction]

theorem getFriendById_open (id : Int) (w : World) (s : ObjectStore) (h : Open w s) :
    getFriendById id w = .normal (issued w .readonly (.get id)
      (some (.getFriendById_onsuccess id)) none) := by
  have h0 := isNone_of_open h
  obtain ⟨-, h2, -⟩ := h
  simp [getFriendById, IDBDatabase.transaction, Transaction.objectStore, IDBObjectStore.get,
    IDBObjectStore.request, World.setOnsuccess, updateLast_concat, h0, h2,
    issued, nextTransaction]

theorem deleteFriend_open (id : Int) (w : World) (s : ObjectStore) (h : Open w s) :
    deleteFriend id w = .normal (issued w .readwrite (.delete id)
      (some (.deleteFriend_onsuccess id)) (some (.deleteFriend_onerror id))) := by
  have h0 := isNone_of_open h
  obtain ⟨-, h2, -⟩ := h
  simp [deleteFriend, IDBDatabase.transaction, Transaction.objectStore, IDBObjectStore.delete,
    IDBObjectStore.request, World.setOnsuccess, World.setOnerror, updateLast_concat, h0, h2,
    issued, nextTransaction]

/-- No operation touches `window.db`, the open request or the database, whether it
returns or throws. -/
theorem perform_frame (c : Call) (w : World) :
    (c.perform w).world.windowDb = w.windowDb ∧
    (c.perform w).world.openPending = w.openPending ∧
    (c.perform w).world.database = w.database ∧
    (c.perform w).world.clock = w.clock := by
  cases hw : w.windowDb with
  | none => rw [perform_notReady c w hw]; simp [Completion.world, World.consoleError, hw]
  | some d =>
    cases hs : w.database.store? friends with
    | none =>
      cases c <;>
        simp [Call.perform, addFriend, getAllFriends, getFriendById, deleteFriend,
          IDBDatabase.transaction, Completion.world, hw, hs]
    | some s =>
      cases ha : s.autoIncrement <;> cases c <;>
        simp [Call.perform, addFriend, getAllFriends, getFriendById, deleteFriend,
          IDBDatabase.transaction, Transaction.objectStore, IDBObjectStore.add,
          IDBObjectStore.getAll, IDBObjectStore.get, IDBObjectStore.delete, IDBObjectStore.request,
          World.setOnsuccess, World.setOnerror, Completion.world, hw, hs, ha]

theorem forEach_consoleLog (g : Friend → List Piece) (l : List Friend) (w : World) :
    l.foldl (fun v f => v.consoleLogTemplate (g f)) w =
      { w with console := w.console ++ l.map (fun f => ConsoleLine.logTemplate (g f)) } := by
  induction l generalizing w with
  | nil => simp
  | cons a t ih => rw [List.foldl_cons, ih]; simp [World.consoleLogTemplate]

theorem runCallback_getAllFriends_onsuccess (result : Result) (w : World) :
    runCallback .getAllFriends_onsuccess result w =
      .normal { w with console := w.console ++ listing result.allFriends } := by
  simp [runCallback, forEach_consoleLog, World.consoleLogList, listing]

/-- No callback touches `window.db`, the open request, the database or the clock. -/
theorem runCallback_frame (c : Callback) (result : Result) (w : World) :
    (runCallback c result w).world.windowDb = w.windowDb ∧
    (runCallback c result w).world.openPending = w.openPending ∧
    (runCallback c result w).world.database = w.database ∧
    (runCallback c result w).world.clock = w.clock := by
  cases c with
  | getAllFriends_onsuccess =>
    rw [runCallback_getAllFriends_onsuccess]; simp [Completion.world]
  | getFriendById_onsuccess id =>
    cases h : result.friend <;>
      simp [runCallback, h, Completion.world, World.consoleLogTemplate]
  | deleteFriend_onsuccess id =>
    have := perform_frame .getAllFriends (w.consoleLogTemplate (deletedMessage id))
    simpa [runCallback, Call.perform, World.consoleLogTemplate] using this
  | _ =>
    simp [runCallback, Completion.world, World.consoleLog, World.consoleError,
      World.consoleErrorTemplate]

/-- While `window.db` is unset, a callback opens no transaction and places no
request, and it returns. -/
theorem runCallback_notReady (c : Callback) (result : Result) (w : World)
    (h : w.windowDb = none) :
    ∃ lines, runCallback c result w = .normal { w with console := w.console ++ lines } := by
  cases c with
  | getAllFriends_onsuccess => exact ⟨_, runCallback_getAllFriends_onsuccess result w⟩
  | getFriendById_onsuccess id =>
    cases hr : result.friend with
    | none =>
      exact ⟨[.logTemplate (notFoundMessage id)],
        by simp [runCallback, hr, World.consoleLogTemplate]⟩
    | some f =>
      exact ⟨[.logTemplate (foundMessage f)], by simp [runCallback, hr, World.consoleLogTemplate]⟩
  | deleteFriend_onsuccess id =>
    refine ⟨[.logTemplate (deletedMessage id), .error notReadyMessage], ?_⟩
    have := perform_notReady .getAllFriends (w.consoleLogTemplate (deletedMessage id)) h
    simp only [Call.perform] at this
    simp only [runCallback]
    rw [this]
    simp [World.consoleLogTemplate, World.consoleError]
  | addFriend_onsuccess name => exact ⟨[.log (addedMessage name)], by simp [runCallback, World.consoleLog]⟩
  | addFriend_onerror name => exact ⟨[.error (addFailedMessage name)], by simp [runCallback, World.consoleError]⟩
  | getAllFriends_onerror => exact ⟨[.error readFailedMessage], by simp [runCallback, World.consoleError]⟩
  | deleteFriend_onerror id =>
    exact ⟨[.errorTemplate (deleteFailedMessage id)],
      by simp [runCallback, World.consoleErrorTemplate]⟩

theorem deliver_frame (cb : Option Callback) (result : Result) (before : Database) (w : World) :
    (deliver cb result before w).windowDb = w.windowDb ∧
    (deliver cb result before w).openPending = w.openPending ∧
    (deliver cb result before w).clock = w.clock := by
  cases cb with
  | none => simp [deliver]
  | some c =>
    have h := runCallback_frame c result w
    cases hc : runCallback c result w <;> simp_all [deliver, Completion.world, World.uncaught]

theorem requestDone_frame (ok : Bool) (w : World) :
    (requestDone ok w).windowDb = w.windowDb ∧
    (requestDone ok w).openPending = w.openPending ∧
    (requestDone ok w).clock = w.clock := by
  unfold requestDone
  split
  · simp
  · rename_i r rest hp
    dsimp only
    split
    · split
      · exact deliver_frame _ _ _ _
      · exact deliver_frame _ _ _ _
    · exact deliver_frame _ _ _ _

theorem deliver_notReady (cb : Option Callback) (result : Result) (before : Database) (w : World)
    (h : w.windowDb = none) :
    ∃ lines, deliver cb result before w = { w with console := w.console ++ lines } := by
  cases cb with
  | none => exact ⟨[], by simp [deliver]⟩
  | some c =>
    obtain ⟨lines, hl⟩ := runCallback_notReady c result w h
    exact ⟨lines, by simp [deliver, hl]⟩

/-- While `window.db` is unset, completing a request opens no transaction. -/
theorem requestDone_notReady (ok : Bool) (w : World) (h : w.windowDb = none) :
    (requestDone ok w).transactions = w.transactions := by
  unfold requestDone
  split
  · rfl
  · rename_i r rest hp
    dsimp only
    split
    · split
      · rename_i db result hx
        obtain ⟨lines, hl⟩ := deliver_notReady r.onsuccess result w.database
          { w with pending := rest, database := db } h
        simp [hl]
      · obtain ⟨lines, hl⟩ := deliver_notReady r.onerror .undefined w.database
          { w with pending := rest } h
        simp [hl]
    · obtain ⟨lines, hl⟩ := deliver_notReady r.onerror .undefined w.database
        { w with pending := rest } h
      simp [hl]

theorem seededWorld_open : Open seededWorld seededStore := by decide

theorem settle_frame (x : Completion) :
    x.settle.windowDb = x.world.windowDb ∧ x.settle.openPending = x.world.openPending ∧
    x.settle.database = x.world.database ∧ x.settle.clock = x.world.clock ∧
    x.settle.transactions = x.world.transactions ∧ x.settle.pending = x.world.pending := by
  cases x <;> simp [Completion.settle, Completion.world, World.uncaught]

theorem step_call_frame (c : Call) (w : World) :
    (step (.call c) w).windowDb = w.windowDb ∧ (step (.call c) w).openPending = w.openPending ∧
    (step (.call c) w).database = w.database ∧ (step (.call c) w).clock = w.clock := by
  have h1 := settle_frame (c.perform w)
  have h2 := perform_frame c w
  simp only [step]
  refine ⟨h1.1.trans h2.1, h1.2.1.trans h2.2.1, h1.2.2.1.trans h2.2.2.1, h1.2.2.2.1.trans h2.2.2.2⟩

/-- Only the completion of the open request can change `window.db`. -/
theorem step_windowDb (e : Event) (w : World) (h : ∀ ok, e ≠ .openDone ok) :
    (step e w).windowDb = w.windowDb := by
  cases e with
  | openDone ok => exact absurd rfl (h ok)
  | requestDone ok => exact (requestDone_frame ok w).1
  | call c => exact (step_call_frame c w).1
  | tick ms => rfl

theorem step_call_notReady (c : Call) (w : World) (h : w.windowDb = none) :
    step (.call c) w = w.consoleError notReadyMessage := by
  simp [step, perform_notReady c w h, Completion.settle]

/-- Once the open request has completed without setting `window.db`, no event sets
it and no event opens a transaction. -/
theorem step_closed (e : Event) (w : World) (h1 : w.windowDb = none)
    (h2 : w.openPending = false) :
    (step e w).windowDb = none ∧ (step e w).openPending = false ∧
    (step e w).transactions = w.transactions := by
  cases e with
  | openDone ok => simp [step, openDone, h1, h2]
  | requestDone ok =>
    have h := requestDone_frame ok w
    exact ⟨h.1.trans h1, h.2.1.trans h2, requestDone_notReady ok w h1⟩
  | call c => rw [step_call_notReady c w h1]; simp [World.consoleError, h1, h2]
  | tick ms => simp [step, h1, h2]

theorem run_closed (es : List Event) (w : World) (h1 : w.windowDb = none)
    (h2 : w.openPending = false) :
    (run es w).windowDb = none ∧ (run es w).openPending = false ∧
    (run es w).transactions = w.transactions := by
  induction es generalizing w with
  | nil => exact ⟨h1, h2, rfl⟩
  | cons e t ih =>
    obtain ⟨a, b, c⟩ := step_closed e w h1 h2
    obtain ⟨a1, b1, c1⟩ := ih (step e w) a b
    exact ⟨a1, b1, c1.trans c⟩

theorem openRequest_onsuccess_windowDb (db : IDBDatabase) (w : World) :
    (openRequest_onsuccess db w).world.windowDb = some db := by
  unfold openRequest_onsuccess
  dsimp only
  have h1 := perform_frame (.addFriend "Анна" 25)
    { w.consoleLog "База данных открыта и готова к работе!" with windowDb := some db }
  simp only [Call.perform] at h1
  split
  · rename_i e w3 heq
    rw [heq] at h1
    simpa [Completion.world] using h1.1
  · rename_i w3 heq
    rw [heq] at h1
    have h2 := perform_frame (.addFriend "Иван" 30) w3
    simp only [Call.perform] at h2
    rw [h2.1]
    simpa [Completion.world] using h1.1

theorem openDone_false (w : World) (h : w.openPending = true) :
    openDone false w = openRequest_onerror { w with openPending := false } := by
  simp [openDone, h]

/-- Claim C1: while `window.db` is unset, each of the four operations, for every
argument, prints the not-ready error and returns, having opened no transaction,
placed no request and left the database alone. -/
theorem notReady_short_circuit (c : Call) (w : World) (h : w.windowDb = none) :
    c.perform w = .normal (w.consoleError notReadyMessage) ∧
    (c.perform w).world.console = w.console ++ [ConsoleLine.error "База данных еще не открыта!"] ∧
    (c.perform w).world.transactions = w.transactions ∧
    (c.perform w).world.pending = w.pending ∧
    (c.perform w).world.database = w.database := by
  rw [perform_notReady c w h]
  simp [Completion.world, World.consoleError, notReadyMessage]

theorem notReady_short_circuit_witness :
    (boot freshDatabase 0).windowDb = none ∧
    (Call.addFriend "Анна" 25).perform (boot freshDatabase 0) =
      .normal ((boot freshDatabase 0).consoleError notReadyMessage) :=
  ⟨rfl, (notReady_short_circuit (.addFriend "Анна" 25) (boot freshDatabase 0) rfl).1⟩

/-- Claim C2, at the failing input: on an open connection `getFriendById(1)` places
a request that has a success callback but no failure callback, and when the
engine rejects that request nothing at all is reported. -/
theorem getFriendById_failure_unreported :
    (∃ r, (step (.call (.getFriendById 1)) seededWorld).pending = [r] ∧
      r.onsuccess = some (.getFriendById_onsuccess 1) ∧ r.onerror = none) ∧
    (step (.requestDone false) (step (.call (.getFriendById 1)) seededWorld)).console =
      seededWorld.console ∧
    (step (.requestDone false) (step (.call (.getFriendById 1)) seededWorld)).pending = [] := by
  refine ⟨⟨_, rfl, rfl, rfl⟩, ?_, ?_⟩ <;> decide

/-- Claim C7: the upgrade step, run on a database that has no object store
"friends" (in particular on the empty database of a first open), returns
normally and appends exactly one object store, named "friends", with key field
"id", auto-increment enabled, a key generator at 1 and no record; every store
that was there stays as it was.  The first open of "MyDatabase" at version 1
thus ends with that one store and nothing else. -/
theorem upgrade_creates_exactly_friends (w : World) (t : Nat)
    (h : w.database.store? "friends" = none) :
    (∃ w1, openRequest_onupgradeneeded w = .normal w1 ∧
      w1.database.objectStores =
        w.database.objectStores ++ [⟨"friends", "id", true, 1, []⟩] ∧
      w1.database.version = w.database.version) ∧
    (openDone true (boot freshDatabase t)).database =
      { version := 1, objectStores := [⟨"friends", "id", true, 1, []⟩] } ∧
    (openDone true (boot freshDatabase t)).windowDb = some ⟨"MyDatabase", 1⟩ := by
  refine ⟨?_, ?_, ?_⟩
  · simp [openRequest_onupgradeneeded, IDBDatabase.createObjectStore, h, World.consoleLog,
      friends]
  · rfl
  · rfl

theorem upgrade_creates_exactly_friends_witness :
    (boot freshDatabase 0).database.store? "friends" = none ∧
    (openDone true (boot freshDatabase 0)).database =
      { version := 1, objectStores := [⟨"friends", "id", true, 1, []⟩] } :=
  ⟨rfl, (upgrade_creates_exactly_friends (boot freshDatabase 0) 0 rfl).2.1⟩

/-- Claim C8: with the connection open, each operation call returns normally having
opened exactly one transaction, whose scope is the store "friends" alone and
whose mode is the one the operation table gives (readwrite for `addFriend` and
`deleteFriend`, readonly for `getAllFriends` and `getFriendById`), and having
placed exactly one request, in that transaction and on that store: `add`,
`getAll`, `get(id)` or `delete(id)`. -/
theorem one_transaction_one_request (c : Call) (w : World) (s : ObjectStore) (h : Open w s) :
    ∃ w1 r, c.perform w = .normal w1 ∧
      w1.transactions = w.transactions ++ [⟨w.transactions.length, ["friends"], c.specMode⟩] ∧
      w1.pending = w.pending ++ [r] ∧
      r.transaction = ⟨w.transactions.length, ["friends"], c.specMode⟩ ∧
      r.store = "friends" ∧
      r.operation = c.specOperation w.clock ∧
      w1.console = w.console ∧ w1.database = w.database ∧ w1.windowDb = w.windowDb := by
  cases c with
  | addFriend name age =>
    exact ⟨_, _, addFriend_open name age w s h, rfl, rfl, rfl, rfl, rfl, rfl, rfl, rfl⟩
  | getAllFriends =>
    exact ⟨_, _, getAllFriends_open w s h, rfl, rfl, rfl, rfl, rfl, rfl, rfl, rfl⟩
  | getFriendById id =>
    exact ⟨_, _, getFriendById_open id w s h, rfl, rfl, rfl, rfl, rfl, rfl, rfl, rfl⟩
  | deleteFriend id =>
    exact ⟨_, _, deleteFriend_open id w s h, rfl, rfl, rfl, rfl, rfl, rfl, rfl, rfl⟩

theorem one_transaction_one_request_witness :
    Open seededWorld seededStore ∧
    ∃ w1 r, (Call.deleteFriend 2).perform seededWorld = .normal w1 ∧
      w1.transactions = seededWorld.transactions ++
        [⟨seededWorld.transactions.length, ["friends"], (Call.deleteFriend 2).specMode⟩] ∧
      w1.pending = seededWorld.pending ++ [r] ∧
      r.transaction = ⟨seededWorld.transactions.length, ["friends"], (Call.deleteFriend 2).specMode⟩ ∧
      r.store = "friends" ∧
      r.operation = (Call.deleteFriend 2).specOperation seededWorld.clock ∧
      w1.console = seededWorld.console ∧ w1.database = seededWorld.database ∧
      w1.windowDb = seededWorld.windowDb :=
  ⟨seededWorld_open, one_transaction_one_request (.deleteFriend 2) seededWorld seededStore
    seededWorld_open⟩

/-- Claim C10: no operation assigns `window.db`, whether it returns or throws; no
event other than the completion of the open request changes it; the success
callback of the open request sets it and the failure callback leaves it alone.
So a failed open leaves it unset, and from any world in which the open request
has completed with `window.db` unset, after every finite sequence of events
(operation calls, request completions, clock ticks, further open completions)
it is still unset, no transaction has been opened, and every operation call just
prints the not-ready error. -/
theorem handle_unset_forever (w : World) (es : List Event)
    (hdb : w.windowDb = none) (hopen : w.openPending = false) :
    (∀ (c : Call) (v : World), (c.perform v).world.windowDb = v.windowDb) ∧
    (∀ (e : Event) (v : World), (∀ ok, e ≠ .openDone ok) → (step e v).windowDb = v.windowDb) ∧
    (∀ (db : IDBDatabase) (v : World), (openRequest_onsuccess db v).world.windowDb = some db) ∧
    (∀ v : World, (openRequest_onerror v).windowDb = v.windowDb) ∧
    (∀ (db : Database) (t : Nat),
      (openDone false (boot db t)).windowDb = none ∧
      (openDone false (boot db t)).openPending = false) ∧
    (run es w).windowDb = none ∧
    (run es w).transactions = w.transactions ∧
    ∀ c : Call, step (.call c) (run es w) = (run es w).consoleError notReadyMessage := by
  obtain ⟨a, -, c⟩ := run_closed es w hdb hopen
  refine ⟨fun c v => (perform_frame c v).1, step_windowDb, openRequest_onsuccess_windowDb,
    fun v => rfl, fun db t => ?_, a, c, fun c => step_call_notReady c _ a⟩
  rw [openDone_false _ rfl]
  exact ⟨rfl, rfl⟩

theorem handle_unset_forever_witness :
    (openDone false (boot freshDatabase 0)).windowDb = none ∧
    (openDone false (boot freshDatabase 0)).openPending = false ∧
    (run [.call (.addFriend "Анна" 25), .requestDone true, .call (.deleteFriend 1)]
      (openDone false (boot freshDatabase 0))).transactions = [] :=
  ⟨rfl, rfl, (handle_unset_forever (openDone false (boot freshDatabase 0))
    [.call (.addFriend "Анна" 25), .requestDone true, .call (.deleteFriend 1)] rfl rfl).2.2.2.2.2.2.1⟩

theorem find?_replaceStore (n : String) (s s1 : ObjectStore) (l : List ObjectStore)
    (h : l.find? (fun t => t.name == n) = some s) (hn : s1.name = n) :
    (replaceStore n s1 l).find? (fun t => t.name == n) = some s1 := by
  induction l with
  | nil => simp at h
  | cons a t ih =>
    by_cases ha : a.name = n
    · simp [replaceStore, ha, hn]
    · have h1 : t.find? (fun t => t.name == n) = some s := by
        simpa [List.find?_cons, ha] using h
      simp [replaceStore, ha, List.find?_cons, ih h1]

theorem replaceStore_self (n : String) (s : ObjectStore) (l : List ObjectStore)
    (h : l.find? (fun t => t.name == n) = some s) : replaceStore n s l = l := by
  induction l with
  | nil => rfl
  | cons a t ih =>
    by_cases ha : a.name = n
    · have : a = s := by simpa [List.find?_cons, ha] using h
      subst this
      simp [replaceStore, ha]
    · have h1 : t.find? (fun t => t.name == n) = some s := by
        simpa [List.find?_cons, ha] using h
      simp [replaceStore, ha, ih h1]

theorem store?_name (db : Database) (n : String) (s : ObjectStore) (h : db.store? n = some s) :
    s.name = n := by
  have := List.find?_some h
  simpa using this

theorem store?_setStore (db : Database) (n : String) (s s1 : ObjectStore)
    (h : db.store? n = some s) (hn : s1.name = n) : (db.setStore n s1).store? n = some s1 :=
  find?_replaceStore n s s1 db.objectStores h hn

theorem setStore_self (db : Database) (n : String) (s : ObjectStore)
    (h : db.store? n = some s) : db.setStore n s = db := by
  simp [Database.setStore, replaceStore_self n s db.objectStores h]

/-- The engine accepts the oldest request. -/
theorem requestDone_accept (w : World) (r : Request) (rest : List Request) (s s1 : ObjectStore)
    (result : Result) (hp : w.pending = r :: rest) (hs : w.database.store? r.store = some s)
    (hx : s.execute r.operation = .ok (s1, result)) :
    requestDone true w = deliver r.onsuccess result w.database
      { w with pending := rest, database := w.database.setStore r.store s1 } := by
  unfold requestDone
  rw [hp]
  simp [Database.execute, hs, hx]

/-- The engine rejects the oldest request. -/
theorem requestDone_reject (w : World) (r : Request) (rest : List Request)
    (hp : w.pending = r :: rest) :
    requestDone false w = deliver r.onerror .undefined w.database { w with pending := rest } := by
  unfold requestDone
  rw [hp]
  simp

theorem find?_none_of_absent (k : Int) (l : List Friend) (h : ∀ r ∈ l, r.id ≠ k) :
    l.find? (fun r => r.id == k) = none := by
  simp [List.find?_eq_none]
  exact h

theorem find?_of_mem (k : Int) (l : List Friend) (r : Friend) (hnd : (l.map (fun x => x.id)).Nodup)
    (hr : r ∈ l) (hk : r.id = k) : l.find? (fun x => x.id == k) = some r := by
  induction l with
  | nil => simp at hr
  | cons a t ih =>
    simp only [List.map_cons, List.nodup_cons] at hnd
    rcases List.mem_cons.mp hr with rfl | hm
    · simp [List.find?_cons, hk]
    · have hne : a.id ≠ k := by
        intro hak
        apply hnd.1
        rw [hak, ← hk]
        exact List.mem_map_of_mem _ hm
      simp [List.find?_cons, hne, ih hnd.2 hm]

/-- Whatever text the host gives to numbers, the "found" line and the "not found"
line are different texts. -/
theorem render_foundMessage_ne (numberToString : JSNumber → String) (friend : Friend)
    (id : Int) :
    render numberToString (foundMessage friend) ≠ render numberToString (notFoundMessage id) := by
  intro h
  have := congrArg (fun s => s.data.head?) h
  simp [render, Piece.render, String.join, foundMessage, notFoundMessage] at this

theorem step_addFriend_open (name : String) (age : JSNumber) (w : World) (s : ObjectStore)
    (h : Open w s) :
    step (.call (.addFriend name age)) w = issued w .readwrite (.add ⟨none, name, age, w.clock⟩)
      (some (.addFriend_onsuccess name)) (some (.addFriend_onerror name)) := by
  simp [step, Call.perform, addFriend_open name age w s h, Completion.settle]

theorem step_getAllFriends_open (w : World) (s : ObjectStore) (h : Open w s) :
    step (.call .getAllFriends) w = issued w .readonly .getAll
      (some .getAllFriends_onsuccess) (some .getAllFriends_onerror) := by
  simp [step, Call.perform, getAllFriends_open w s h, Completion.settle]

theorem step_getFriendById_open (id : Int) (w : World) (s : ObjectStore) (h : Open w s) :
    step (.call (.getFriendById id)) w = issued w .readonly (.get id)
      (some (.getFriendById_onsuccess id)) none := by
  simp [step, Call.perform, getFriendById_open id w s h, Completion.settle]

theorem step_deleteFriend_open (id : Int) (w : World) (s : ObjectStore) (h : Open w s) :
    step (.call (.deleteFriend id)) w = issued w .readwrite (.delete id)
      (some (.deleteFriend_onsuccess id)) (some (.deleteFriend_onerror id)) := by
  simp [step, Call.perform, deleteFriend_open id w s h, Completion.settle]

/-- The engine serves a `get` placed by `getFriendById`. -/
theorem requestDone_get (w : World) (s : ObjectStore) (tx : Transaction) (id : Int)
    (err : Option Callback) (rest : List Request)
    (hp : w.pending = ⟨tx, friends, .get id, some (.getFriendById_onsuccess id), err⟩ :: rest)
    (hs : w.database.store? friends = some s) :
    requestDone true w =
      { w with pending := rest, console := w.console ++ [lookupLine id s.records] } := by
  rw [requestDone_accept w _ rest s s (.record (s.records.find? (fun r => r.id == id))) hp hs rfl]
  simp only [setStore_self _ _ _ hs, deliver, runCallback, Result.friend, lookupLine]
  cases s.records.find? (fun r => r.id == id) <;> simp [World.consoleLogTemplate]

/-- The engine serves a `getAll` placed by `getAllFriends`. -/
theorem requestDone_getAll (w : World) (s : ObjectStore) (tx : Transaction)
    (err : Option Callback) (rest : List Request)
    (hp : w.pending = ⟨tx, friends, .getAll, some .getAllFriends_onsuccess, err⟩ :: rest)
    (hs : w.database.store? friends = some s) :
    requestDone true w =
      { w with pending := rest, console := w.console ++ listing s.records } := by
  rw [requestDone_accept w _ rest s s (.records s.records) hp hs rfl]
  simp only [setStore_self _ _ _ hs, deliver, runCallback_getAllFriends_onsuccess,
    Result.allFriends]

/-- The engine serves an `add` placed by `addFriend`: the record gets the next
number of the key generator. -/
theorem requestDone_add (w : World) (s : ObjectStore) (tx : Transaction) (name : String)
    (age : JSNumber) (added : Nat) (err : Option Callback) (rest : List Request)
    (hp : w.pending =
      ⟨tx, friends, .add ⟨none, name, age, added⟩, some (.addFriend_onsuccess name), err⟩ :: rest)
    (hs : w.database.store? friends = some s) (ha : s.autoIncrement = true) :
    requestDone true w =
      { w with
        pending := rest,
        database := w.database.setStore friends
          { s with records := insertRecord ⟨s.keyGenerator, name, age, added⟩ s.records,
                   keyGenerator := s.keyGenerator + 1 },
        console := w.console ++ [.log (addedMessage name)] } := by
  rw [requestDone_accept w _ rest s
    { s with records := insertRecord ⟨s.keyGenerator, name, age, added⟩ s.records,
             keyGenerator := s.keyGenerator + 1 } (.key s.keyGenerator) hp hs
    (by simp [ObjectStore.execute, ha])]
  simp [deliver, runCallback, World.consoleLog]

/-- The engine serves a `delete` placed by `deleteFriend` on an open connection:
the record with the key goes, the confirmation is printed, and then the
follow-up `getAllFriends()` opens its transaction and places its request. -/
theorem requestDone_delete (w : World) (s : ObjectStore) (tx : Transaction) (id : Int)
    (err : Option Callback) (rest : List Request) (hw : w.windowDb.isSome = true)
    (hp : w.pending = ⟨tx, friends, .delete id, some (.deleteFriend_onsuccess id), err⟩ :: rest)
    (hs : w.database.store? friends = some s) (ha : s.autoIncrement = true) :
    requestDone true w =
      issued
        { w with
          pending := rest,
          database := w.database.setStore friends
            { s with records := s.records.filter (fun r => r.id != id) },
          console := w.console ++ [.logTemplate (deletedMessage id)] }
        .readonly .getAll (some .getAllFriends_onsuccess) (some .getAllFriends_onerror) := by
  rw [requestDone_accept w _ rest s { s with records := s.records.filter (fun r => r.id != id) }
    .undefined hp hs rfl]
  have hn := store?_name _ _ _ hs
  have ho : Open
      ({ w with
          pending := rest,
          database := w.database.setStore friends
            { s with records := s.records.filter (fun r => r.id != id) } }.consoleLogTemplate
        (deletedMessage id))
      { s with records := s.records.filter (fun r => r.id != id) } :=
    ⟨hw, store?_setStore _ _ _ _ hs hn, ha⟩
  simp only [deliver, runCallback]
  rw [getAllFriends_open _ _ ho]
  rfl

theorem mem_insertRecord (r : Friend) (l : List Friend) : r ∈ insertRecord r l := by
  induction l with
  | nil => simp [insertRecord]
  | cons a t ih =>
    unfold insertRecord
    split <;> simp [ih]

/-- Claim C3: with the connection open, `getFriendById(id)` places one `get(id)`
request with a success callback and no failure callback.  Whenever that request
is the oldest pending one: if the engine serves it and no record of the store
has the key `id`, the success callback prints "not found"; if the engine serves
it and a record has the key `id`, the success callback prints "found" with that
record's name and age; if the engine rejects it, nothing is printed, so no
failure is ever reported for it.  Whatever text the host gives to numbers, the
"found" and "not found" lines are different texts. -/
theorem getFriendById_found_or_not_found (id : Int) (w : World) (s : ObjectStore)
    (h : Open w s) :
    (step (.call (.getFriendById id)) w).pending =
      w.pending ++ [⟨⟨w.transactions.length, ["friends"], .readonly⟩, "friends", .get id,
        some (.getFriendById_onsuccess id), none⟩] ∧
    (∀ (v : World) (s1 : ObjectStore) (rest : List Request),
      v.database.store? "friends" = some s1 →
      v.pending = ⟨⟨w.transactions.length, ["friends"], .readonly⟩, "friends", .get id,
        some (.getFriendById_onsuccess id), none⟩ :: rest →
      ((∀ r ∈ s1.records, r.id ≠ id) →
        requestDone true v = { v with
          pending := rest,
          console := v.console ++
            [.logTemplate [.text "Друг с ID=", .number (.ofInt id), .text " не найден"]] }) ∧
      (∀ r ∈ s1.records, r.id = id → (s1.records.map (fun x => x.id)).Nodup →
        requestDone true v = { v with
          pending := rest,
          console := v.console ++
            [.logTemplate
              [.text "Найден друг: ", .text r.name, .text ", возраст: ", .number r.age]] }) ∧
      requestDone false v = { v with pending := rest }) ∧
    (∀ (numberToString : JSNumber → String) (r : Friend),
      render numberToString
          [.text "Найден друг: ", .text r.name, .text ", возраст: ", .number r.age] ≠
        render numberToString
          [.text "Друг с ID=", .number (.ofInt id), .text " не найден"]) := by
  refine ⟨?_, fun v s1 rest hs hp => ⟨fun habs => ?_, fun r hr hk hnd => ?_, ?_⟩,
    fun numberToString r => ?_⟩
  · rw [step_getFriendById_open id w s h]
    rfl
  · rw [requestDone_get v s1 _ id none rest hp hs]
    simp [lookupLine, find?_none_of_absent id s1.records habs, notFoundMessage]
  · rw [requestDone_get v s1 _ id none rest hp hs]
    simp [lookupLine, find?_of_mem id s1.records r hnd hr hk, foundMessage]
  · rw [requestDone_reject v _ rest hp]
    rfl
  · exact render_foundMessage_ne numberToString r id

theorem getFriendById_found_or_not_found_witness :
    Open seededWorld seededStore ∧
    (step (.requestDone true) (step (.call (.getFriendById 7)) seededWorld)).console =
      seededWorld.console ++
        [.logTemplate [.text "Друг с ID=", .number (.ofInt 7), .text " не найден"]] ∧
    (step (.requestDone true) (step (.call (.getFriendById 2)) seededWorld)).console =
      seededWorld.console ++
        [.logTemplate [.text "Найден друг: ", .text "Иван", .text ", возраст: ", .number 30]] :=
  ⟨seededWorld_open,
    congrArg World.console
      (((getFriendById_found_or_not_found 7 seededWorld seededStore seededWorld_open).2.1
        (step (.call (.getFriendById 7)) seededWorld) seededStore [] rfl rfl).1 (by decide)),
    congrArg World.console
      (((getFriendById_found_or_not_found 2 seededWorld seededStore seededWorld_open).2.1
        (step (.call (.getFriendById 2)) seededWorld) seededStore [] rfl rfl).2.1
        ⟨2, "Иван", 30, 0⟩ (by decide) rfl (by decide))⟩

theorem run_deleteFriend (id : Int) (w : World) (s : ObjectStore) (h : Open w s)
    (hq : w.pending = []) :
    run [.call (.deleteFriend id), .requestDone true] w =
      { w with
        database := w.database.setStore friends (afterDelete id s),
        transactions := w.transactions ++
          [⟨w.transactions.length, [friends], .readwrite⟩,
           ⟨w.transactions.length + 1, [friends], .readonly⟩],
        pending := [⟨⟨w.transactions.length + 1, [friends], .readonly⟩, friends, .getAll,
          some .getAllFriends_onsuccess, some .getAllFriends_onerror⟩],
        console := w.console ++ [.logTemplate (deletedMessage id)] } := by
  show step (.requestDone true) (step (.call (.deleteFriend id)) w) = _
  rw [step_deleteFriend_open id w s h]
  show requestDone true _ = _
  rw [requestDone_delete (issued w .readwrite (.delete id) (some (.deleteFriend_onsuccess id))
    (some (.deleteFriend_onerror id))) s (nextTransaction w .readwrite) id
    (some (.deleteFriend_onerror id)) [] h.1 (by simp [issued, hq]) h.2.1 h.2.2]
  simp [issued, nextTransaction, afterDelete]

theorem open_run_deleteFriend (id : Int) (w : World) (s : ObjectStore) (h : Open w s)
    (hq : w.pending = []) :
    Open (run [.call (.deleteFriend id), .requestDone true] w) (afterDelete id s) := by
  rw [run_deleteFriend id w s h hq]
  exact ⟨h.1, store?_setStore _ _ s _ h.2.1 (store?_name _ _ s h.2.1), h.2.2⟩

/-- Claim C9: with the connection open, `deleteFriend(id)` opens one readwrite
transaction and places one `delete(id)` request.  Whenever that request is the
oldest pending one: if the engine serves it, the success callback first prints
the confirmation and then calls `getAllFriends()` once, which opens one new
readonly transaction and places one `getAll` request in it; if the engine
rejects it, only the failure is printed, no transaction is opened and no request
placed. -/
theorem deleteFriend_follow_up (id : Int) (w : World) (s : ObjectStore) (h : Open w s) :
    (step (.call (.deleteFriend id)) w).transactions =
      w.transactions ++ [⟨w.transactions.length, ["friends"], .readwrite⟩] ∧
    (step (.call (.deleteFriend id)) w).pending =
      w.pending ++ [⟨⟨w.transactions.length, ["friends"], .readwrite⟩, "friends", .delete id,
        some (.deleteFriend_onsuccess id), some (.deleteFriend_onerror id)⟩] ∧
    (∀ (result : Result) (v : World),
      runCallback (.deleteFriend_onsuccess id) result v =
        getAllFriends
          (v.consoleLogTemplate [.text "Друг с ID=", .number (.ofInt id), .text " удален"])) ∧
    ∀ (v : World) (s1 : ObjectStore) (rest : List Request),
      v.pending = ⟨⟨w.transactions.length, ["friends"], .readwrite⟩, "friends", .delete id,
        some (.deleteFriend_onsuccess id), some (.deleteFriend_onerror id)⟩ :: rest →
      (Open v s1 →
        (requestDone true v).console =
          v.console ++
            [.logTemplate [.text "Друг с ID=", .number (.ofInt id), .text " удален"]] ∧
        (requestDone true v).transactions =
          v.transactions ++ [⟨v.transactions.length, ["friends"], .readonly⟩] ∧
        (requestDone true v).pending =
          rest ++ [⟨⟨v.transactions.length, ["friends"], .readonly⟩, "friends", .getAll,
            some .getAllFriends_onsuccess, some .getAllFriends_onerror⟩]) ∧
      (requestDone false v).console =
        v.console ++
          [.errorTemplate [.text "Не удалось удалить друга с ID=", .number (.ofInt id)]] ∧
      (requestDone false v).transactions = v.transactions ∧
      (requestDone false v).pending = rest := by
  refine ⟨?_, ?_, fun _ _ => rfl, fun v s1 rest hp => ⟨fun hv => ?_, ?_⟩⟩
  · rw [step_deleteFriend_open id w s h]
    rfl
  · rw [step_deleteFriend_open id w s h]
    rfl
  · rw [requestDone_delete v s1 _ id _ rest hv.1 hp hv.2.1 hv.2.2]
    exact ⟨rfl, rfl, rfl⟩
  · rw [requestDone_reject v _ rest hp]
    exact ⟨rfl, rfl, rfl⟩

theorem deleteFriend_follow_up_witness :
    Open seededWorld seededStore ∧
    (step (.requestDone true) (step (.call (.deleteFriend 1)) seededWorld)).pending =
      [⟨⟨seededWorld.transactions.length + 1, ["friends"], .readonly⟩, "friends", .getAll,
        some .getAllFriends_onsuccess, some .getAllFriends_onerror⟩] :=
  ⟨seededWorld_open,
    (((deleteFriend_follow_up 1 seededWorld seededStore seededWorld_open).2.2.2
      (step (.call (.deleteFriend 1)) seededWorld) seededStore [] rfl).1 (by decide)).2.2⟩

theorem run_append (es fs : List Event) (w : World) : run (es ++ fs) w = run fs (run es w) := by
  simp [run, List.foldl_append]

theorem getFriendById_behind_getAll (id : Int) (v : World) (s : ObjectStore) (tx : Transaction)
    (h : Open v s)
    (hp : v.pending =
      [⟨tx, friends, .getAll, some .getAllFriends_onsuccess, some .getAllFriends_onerror⟩])
    (habs : ∀ r ∈ s.records, r.id ≠ id) (ok : Bool) :
    (run [.call (.getFriendById id), .requestDone ok, .requestDone true] v).console.getLast? =
      some (.logTemplate (notFoundMessage id)) := by
  show (requestDone true (requestDone ok (step (.call (.getFriendById id)) v))).console.getLast? = _
  rw [step_getFriendById_open id v s h]
  have hl : lookupLine id s.records = .logTemplate (notFoundMessage id) := by
    simp [lookupLine, find?_none_of_absent id s.records habs]
  have key : ∀ X : World,
      X.pending = [⟨nextTransaction v .readonly, friends, .get id,
        some (.getFriendById_onsuccess id), none⟩] →
      X.database.store? friends = some s →
      (requestDone true X).console.getLast? = some (.logTemplate (notFoundMessage id)) := by
    intro X hpX hsX
    rw [requestDone_get X s (nextTransaction v .readonly) id none [] hpX hsX]
    simp [hl]
  cases ok with
  | true =>
    rw [requestDone_getAll (issued v .readonly (.get id) (some (.getFriendById_onsuccess id)) none)
      s tx (some .getAllFriends_onerror)
      [⟨nextTransaction v .readonly, friends, .get id, some (.getFriendById_onsuccess id), none⟩]
      (by simp [issued, hp]) h.2.1]
    exact key _ rfl h.2.1
  | false =>
    rw [requestDone_reject (issued v .readonly (.get id) (some (.getFriendById_onsuccess id)) none)
      ⟨tx, friends, .getAll, some .getAllFriends_onsuccess, some .getAllFriends_onerror⟩
      [⟨nextTransaction v .readonly, friends, .get id, some (.getFriendById_onsuccess id), none⟩]
      (by simp [issued, hp])]
    exact key _ rfl h.2.1

/-- Claim C4: with the connection open, `deleteFriend(id)` places one `delete(id)`
request.  Whenever that request is the oldest pending one and the engine serves
it, for every id and every content of the store, the store then holds no record
with key `id`, holds every record it held whose key differs from `id`
(unchanged, in the same order, and nothing new), and keeps its key generator.
When nothing else is in flight, a `getFriendById(id)` called next prints
"not found". -/
theorem deleteFriend_removes_exactly_that_record (id : Int) (w : World) (s : ObjectStore)
    (h : Open w s) :
    (step (.call (.deleteFriend id)) w).pending =
      w.pending ++ [⟨⟨w.transactions.length, ["friends"], .readwrite⟩, "friends", .delete id,
        some (.deleteFriend_onsuccess id), some (.deleteFriend_onerror id)⟩] ∧
    (∀ (v : World) (s1 : ObjectStore) (rest : List Request), Open v s1 →
      v.pending = ⟨⟨w.transactions.length, ["friends"], .readwrite⟩, "friends", .delete id,
        some (.deleteFriend_onsuccess id), some (.deleteFriend_onerror id)⟩ :: rest →
      ∃ s2 : ObjectStore,
        (requestDone true v).database.store? "friends" = some s2 ∧
        (∀ r ∈ s2.records, r.id ≠ id) ∧
        (∀ r ∈ s1.records, r.id ≠ id → r ∈ s2.records) ∧
        s2.records.Sublist s1.records ∧
        s2.keyGenerator = s1.keyGenerator) ∧
    (w.pending = [] → ∀ ok : Bool,
      (run [.call (.deleteFriend id), .requestDone true, .call (.getFriendById id),
        .requestDone ok, .requestDone true] w).console.getLast? =
        some (.logTemplate [.text "Друг с ID=", .number (.ofInt id), .text " не найден"])) := by
  have habs : ∀ s1 : ObjectStore, ∀ r ∈ (afterDelete id s1).records, r.id ≠ id := by
    intro s1 r hr
    simpa [afterDelete] using (List.mem_filter.mp hr).2
  refine ⟨?_, fun v s1 rest hv hp => ?_, fun hq ok => ?_⟩
  · rw [step_deleteFriend_open id w s h]
    rfl
  · refine ⟨afterDelete id s1, ?_, habs s1, ?_, List.filter_sublist _, rfl⟩
    · rw [requestDone_delete v s1 _ id _ rest hv.1 hp hv.2.1 hv.2.2]
      exact store?_setStore _ _ s1 _ hv.2.1 (store?_name _ _ s1 hv.2.1)
    · intro r hr hne
      simp [afterDelete, List.mem_filter, hr, hne]
  · have ho := open_run_deleteFriend id w s h hq
    have hsplit : [Event.call (.deleteFriend id), .requestDone true, .call (.getFriendById id),
        .requestDone ok, .requestDone true] =
        [Event.call (.deleteFriend id), .requestDone true] ++
          [.call (.getFriendById id), .requestDone ok, .requestDone true] := rfl
    rw [hsplit, run_append]
    exact getFriendById_behind_getAll id _ (afterDelete id s)
      ⟨w.transactions.length + 1, [friends], .readonly⟩ ho
      (by rw [run_deleteFriend id w s h hq]) (habs s) ok

theorem deleteFriend_removes_exactly_that_record_witness :
    Open seededWorld seededStore ∧ seededWorld.pending = [] ∧
    (∃ s2 : ObjectStore,
      (requestDone true (step (.call (.deleteFriend 1)) seededWorld)).database.store? "friends" =
        some s2 ∧
      (∀ r ∈ s2.records, r.id ≠ 1) ∧
      (∀ r ∈ seededStore.records, r.id ≠ 1 → r ∈ s2.records) ∧
      s2.records.Sublist seededStore.records ∧
      s2.keyGenerator = seededStore.keyGenerator) ∧
    ∀ ok : Bool,
      (run [.call (.deleteFriend 1), .requestDone true, .call (.getFriendById 1),
        .requestDone ok, .requestDone true] seededWorld).console.getLast? =
        some (.logTemplate [.text "Друг с ID=", .number (.ofInt 1), .text " не найден"]) :=
  ⟨seededWorld_open, rfl,
    (deleteFriend_removes_exactly_that_record 1 seededWorld seededStore seededWorld_open).2.1
      (step (.call (.deleteFriend 1)) seededWorld) seededStore [] (by decide) rfl,
    (deleteFriend_removes_exactly_that_record 1 seededWorld seededStore seededWorld_open).2.2
      rfl⟩

theorem run_addFriend (name : String) (age : JSNumber) (w : World) (s : ObjectStore) (h : Open w s)
    (hq : w.pending = []) :
    run [.call (.addFriend name age), .requestDone true] w =
      { w with
        database := w.database.setStore friends (afterAdd name age w.clock s),
        transactions := w.transactions ++ [⟨w.transactions.length, [friends], .readwrite⟩],
        console := w.console ++ [.log (addedMessage name)] } := by
  show step (.requestDone true) (step (.call (.addFriend name age)) w) = _
  rw [step_addFriend_open name age w s h]
  show requestDone true _ = _
  rw [requestDone_add (issued w .readwrite (.add ⟨none, name, age, w.clock⟩)
    (some (.addFriend_onsuccess name)) (some (.addFriend_onerror name))) s
    (nextTransaction w .readwrite) name age w.clock (some (.addFriend_onerror name)) []
    (by simp [issued, hq]) h.2.1 h.2.2]
  simp [issued, nextTransaction, afterAdd, hq]

theorem run_getAllFriends (w : World) (s : ObjectStore) (h : Open w s) (hq : w.pending = []) :
    run [.call .getAllFriends, .requestDone true] w =
      { w with
        transactions := w.transactions ++ [⟨w.transactions.length, [friends], .readonly⟩],
        console := w.console ++ listing s.records } := by
  show step (.requestDone true) (step (.call .getAllFriends) w) = _
  rw [step_getAllFriends_open w s h]
  show requestDone true _ = _
  rw [requestDone_getAll (issued w .readonly .getAll (some .getAllFriends_onsuccess)
    (some .getAllFriends_onerror)) s (nextTransaction w .readonly) (some .getAllFriends_onerror) []
    (by simp [issued, hq]) h.2.1]
  simp [issued, nextTransaction, hq]

/-- Claim C6: with the connection open, `addFriend(name, age)` places one `add`
request whose value has the arguments as `name` and `age`, the time of the call
as `added`, and no `id` field.  When nothing else is in flight, once the engine
has served it a `getAllFriends()` prints an array that contains a record with
that name, that age and that `added` value. -/
theorem addFriend_then_getAllFriends (name : String) (age : JSNumber) (w : World) (s : ObjectStore)
    (h : Open w s) :
    (step (.call (.addFriend name age)) w).pending =
      w.pending ++ [⟨⟨w.transactions.length, ["friends"], .readwrite⟩, "friends",
        .add { id := none, name := name, age := age, added := w.clock },
        some (.addFriend_onsuccess name), some (.addFriend_onerror name)⟩] ∧
    (w.pending = [] →
      ∃ all : List Friend,
        (run [.call (.addFriend name age), .requestDone true, .call .getAllFriends,
          .requestDone true] w).console =
          w.console ++ [.log ("Друг " ++ name ++ " добавлен!")] ++
            (ConsoleLine.logList "Все друзья в базе:" all ::
              all.map (fun f => ConsoleLine.logTemplate
                [.text "ID: ", .number (.ofInt f.id), .text ", Имя: ", .text f.name,
                  .text ", Возраст: ", .number f.age])) ∧
        ∃ f ∈ all, f.name = name ∧ f.age = age ∧ f.added = w.clock) := by
  constructor
  · rw [step_addFriend_open name age w s h]
    rfl
  · intro hq
    refine ⟨(afterAdd name age w.clock s).records, ?_,
      ⟨s.keyGenerator, name, age, w.clock⟩, mem_insertRecord _ _, rfl, rfl, rfl⟩
    have hsplit : [Event.call (.addFriend name age), .requestDone true, .call .getAllFriends,
        .requestDone true] =
        [Event.call (.addFriend name age), .requestDone true] ++
          [.call .getAllFriends, .requestDone true] := rfl
    have ho : Open (run [.call (.addFriend name age), .requestDone true] w)
        (afterAdd name age w.clock s) := by
      rw [run_addFriend name age w s h hq]
      exact ⟨h.1, store?_setStore _ _ s _ h.2.1 (store?_name _ _ s h.2.1), h.2.2⟩
    rw [hsplit, run_append,
      run_getAllFriends _ _ ho (by rw [run_addFriend name age w s h hq]; exact hq)]
    rw [run_addFriend name age w s h hq]
    simp [listing, addedMessage, friendLine]

theorem addFriend_then_getAllFriends_witness :
    Open seededWorld seededStore ∧ seededWorld.pending = [] ∧
    ∃ all : List Friend,
      (run [.call (.addFriend "Ольга" 41), .requestDone true, .call .getAllFriends,
        .requestDone true] seededWorld).console =
        seededWorld.console ++ [.log ("Друг " ++ "Ольга" ++ " добавлен!")] ++
          (ConsoleLine.logList "Все друзья в базе:" all ::
            all.map (fun f => ConsoleLine.logTemplate
              [.text "ID: ", .number (.ofInt f.id), .text ", Имя: ", .text f.name,
                .text ", Возраст: ", .number f.age])) ∧
      ∃ f ∈ all, f.name = "Ольга" ∧ f.age = 41 ∧ f.added = seededWorld.clock :=
  ⟨seededWorld_open, rfl,
    (addFriend_then_getAllFriends "Ольга" 41 seededWorld seededStore seededWorld_open).2 rfl⟩

theorem numbered_append (k : Int) (l : List (String × JSNumber)) (c : String × JSNumber) :
    numbered k (l ++ [c]) = numbered k l ++ [(k + l.length, c.1, c.2)] := by
  induction l generalizing k with
  | nil => simp [numbered]
  | cons a t ih =>
    have hk : k + 1 + (t.length : Int) = k + ((t.length + 1 : Nat) : Int) := by
      push_cast; ring
    show (k, a.1, a.2) :: numbered (k + 1) (t ++ [c]) = _
    rw [ih (k + 1), hk]
    rfl

theorem numbered_bounds (k : Int) (l : List (String × JSNumber)) :
    ∀ p ∈ numbered k l, k ≤ p.1 ∧ p.1 < k + l.length := by
  induction l generalizing k with
  | nil => simp [numbered]
  | cons a t ih =>
    intro p hp
    simp only [numbered, List.mem_cons] at hp
    rcases hp with rfl | hp
    · simp only [List.length_cons, Nat.cast_add, Nat.cast_one]
      omega
    · have := ih (k + 1) p hp
      simp only [List.length_cons, Nat.cast_add, Nat.cast_one]
      omega

theorem numbered_length (k : Int) (l : List (String × JSNumber)) : (numbered k l).length = l.length := by
  induction l generalizing k with
  | nil => rfl
  | cons a t ih => simp [numbered, ih]

theorem numbered_increasing (k : Int) (l : List (String × JSNumber)) :
    ((numbered k l).map (fun p => p.1)).Pairwise (· < ·) := by
  induction l generalizing k with
  | nil => simp [numbered]
  | cons a t ih =>
    simp only [numbered, List.map_cons, List.pairwise_cons]
    refine ⟨?_, ih (k + 1)⟩
    intro x hx
    obtain ⟨p, hp, rfl⟩ := List.mem_map.mp hx
    have := (numbered_bounds (k + 1) t p hp).1
    omega

theorem insertRecord_last (r : Friend) (l : List Friend) (h : ∀ x ∈ l, x.id < r.id) :
    insertRecord r l = l ++ [r] := by
  induction l with
  | nil => rfl
  | cons a t ih =>
    have ha : ¬ r.id < a.id := by
      have := h a (List.mem_cons_self _ _)
      omega
    simp [insertRecord, ha, ih (fun x hx => h x (List.mem_cons_of_mem _ hx))]

theorem insertInv_step (e : Event) (w : World) (done waiting : List (String × JSNumber))
    (hinv : InsertInv w done waiting) (he : e.isInsert = true) :
    ∃ done1 waiting1, InsertInv (step e w) done1 waiting1 ∧
      done1 ++ waiting1 = done ++ waiting ++ addCalls [e] := by
  obtain ⟨hw, s, hs, ha, hrec, hgen, hpend⟩ := hinv
  cases e with
  | openDone ok => simp [Event.isInsert] at he
  | tick ms => exact ⟨done, waiting, ⟨hw, s, hs, ha, hrec, hgen, hpend⟩, by simp [addCalls]⟩
  | call c =>
    cases c with
    | addFriend name age =>
      refine ⟨done, waiting ++ [(name, age)], ?_, by simp [addCalls]⟩
      rw [step_addFriend_open name age w s ⟨hw, hs, ha⟩]
      refine ⟨hw, s, hs, ha, hrec, hgen, ?_⟩
      exact List.rel_append hpend (List.Forall₂.cons ⟨_, _, rfl⟩ List.Forall₂.nil)
    | getAllFriends => simp [Event.isInsert] at he
    | getFriendById id => simp [Event.isInsert] at he
    | deleteFriend id => simp [Event.isInsert] at he
  | requestDone ok =>
    cases ok with
    | false => simp [Event.isInsert] at he
    | true =>
      generalize hq : w.pending = q at hpend
      cases hpend with
      | nil =>
        have hstep : step (.requestDone true) w = w := by
          simp [step, requestDone, hq]
        rw [hstep]
        refine ⟨done, [], ⟨hw, s, hs, ha, hrec, hgen, ?_⟩, by simp [addCalls]⟩
        rw [hq]
        exact List.Forall₂.nil
      | cons hr hrest =>
        rename_i c r cs rest
        obtain ⟨tx, t, rfl⟩ := hr
        refine ⟨done ++ [c], cs, ?_, by simp [addCalls]⟩
        show InsertInv (requestDone true w) _ _
        rw [requestDone_add w s tx c.1 c.2 t _ rest hq hs ha]
        have hlt : ∀ x ∈ s.records, x.id < s.keyGenerator := by
          intro x hx
          have hm : (x.id, x.name, x.age) ∈ numbered 1 done := by
            rw [← hrec]
            exact List.mem_map_of_mem (fun r => (r.id, r.name, r.age)) hx
          have := (numbered_bounds 1 done _ hm).2
          simp only at this
          omega
        refine ⟨hw, _, store?_setStore _ _ s _ hs (store?_name _ _ s hs), ha, ?_, ?_, hrest⟩
        · rw [insertRecord_last _ _ hlt]
          simp [numbered_append, hrec, hgen]
        · simp [hgen]
          ring

theorem insertInv_run (es : List Event) (w : World) (done waiting : List (String × JSNumber))
    (hinv : InsertInv w done waiting) (hes : ∀ e ∈ es, e.isInsert = true) :
    ∃ done1 waiting1, InsertInv (run es w) done1 waiting1 ∧
      done1 ++ waiting1 = done ++ waiting ++ addCalls es := by
  induction es generalizing w done waiting with
  | nil => exact ⟨done, waiting, hinv, by simp [addCalls]⟩
  | cons e t ih =>
    obtain ⟨d1, w1, h1, e1⟩ := insertInv_step e w done waiting hinv (hes e (List.mem_cons_self _ _))
    obtain ⟨d2, w2, h2, e2⟩ := ih (step e w) d1 w1 h1 (fun x hx => hes x (List.mem_cons_of_mem _ hx))
    refine ⟨d2, w2, h2, ?_⟩
    rw [e2, e1]
    cases e with
    | call c => cases c <;> simp [addCalls]
    | _ => simp [addCalls]

/-- A first open ends like two `addFriend` calls, lines 41-42, made on an open
connection to the freshly created store. -/
theorem first_open_seeds (clock : Nat) :
    openDone true (boot freshDatabase clock) =
      run [.call (.addFriend "Анна" 25), .call (.addFriend "Иван" 30)] (firstOpenWorld clock) :=
  rfl

/-- Claim C5: on an open connection to a freshly created store "friends" (no record,
key generator at 1, nothing pending), after any run made only of `addFriend`
calls, requests served by the engine and clock ticks, at the end of which nothing
is pending, the store holds one record per call; in key order they carry the
names and ages of the calls in call order and the ids 1, 2, ..., N, which are
strictly increasing (hence pairwise distinct); and a `getAllFriends()` then
prints an array of exactly N records.  The two calls of lines 41-42 count among
the N calls. -/
theorem inserts_receive_increasing_ids (w : World) (s : ObjectStore) (es : List Event)
    (h : Open w s) (hrec : s.records = []) (hgen : s.keyGenerator = 1) (hq : w.pending = [])
    (hes : ∀ e ∈ es, e.isInsert = true) (hdone : (run es w).pending = []) :
    ∃ s1 : ObjectStore,
      (run es w).database.store? "friends" = some s1 ∧
      s1.records.map (fun r => (r.id, r.name, r.age)) = numbered 1 (addCalls es) ∧
      (s1.records.map (fun r => r.id)).Pairwise (· < ·) ∧
      (s1.records.map (fun r => r.id)).Nodup ∧
      s1.records.length = (addCalls es).length ∧
      ∃ all : List Friend,
        (run (es ++ [.call .getAllFriends, .requestDone true]) w).console =
          (run es w).console ++
            (ConsoleLine.logList "Все друзья в базе:" all ::
              all.map (fun f => ConsoleLine.logTemplate
                [.text "ID: ", .number (.ofInt f.id), .text ", Имя: ", .text f.name,
                  .text ", Возраст: ", .number f.age])) ∧
        all = s1.records ∧ all.length = (addCalls es).length := by
  have h0 : InsertInv w [] [] := by
    refine ⟨h.1, s, h.2.1, h.2.2, by simp [hrec, numbered], by simp [hgen], ?_⟩
    rw [hq]
    exact List.Forall₂.nil
  obtain ⟨done, waiting, ⟨hw, s1, hs1, ha1, hr1, -, hp1⟩, hsum⟩ := insertInv_run es w [] [] h0 hes
  rw [hdone] at hp1
  have hwait : waiting = [] := by cases hp1; rfl
  subst hwait
  simp only [List.append_nil, List.nil_append] at hsum
  subst hsum
  have hids : s1.records.map (fun r => r.id) =
      (numbered 1 (addCalls es)).map (fun p => p.1) := by
    rw [← hr1, List.map_map]
    rfl
  have hlen : s1.records.length = (addCalls es).length := by
    have := congrArg List.length hr1
    simpa [numbered_length] using this
  have hinc : (s1.records.map (fun r => r.id)).Pairwise (· < ·) := by
    rw [hids]
    exact numbered_increasing 1 _
  refine ⟨s1, hs1, hr1, hinc, hinc.imp (fun hlt => ne_of_lt hlt), hlen, s1.records, ?_, rfl, hlen⟩
  · rw [run_append, run_getAllFriends (run es w) s1 ⟨hw, hs1, ha1⟩ hdone]
    rfl

theorem inserts_receive_increasing_ids_witness :
    Open (firstOpenWorld 0) ⟨"friends", "id", true, 1, []⟩ ∧
    (run [.call (.addFriend "Анна" 25), .call (.addFriend "Иван" 30), .requestDone true,
      .tick 5, .call (.addFriend "Ольга" 41), .requestDone true, .requestDone true]
      (firstOpenWorld 0)).pending = [] ∧
    ∃ s1 : ObjectStore,
      (run [.call (.addFriend "Анна" 25), .call (.addFriend "Иван" 30), .requestDone true,
        .tick 5, .call (.addFriend "Ольга" 41), .requestDone true, .requestDone true]
        (firstOpenWorld 0)).database.store? "friends" = some s1 ∧
      s1.records.map (fun r => (r.id, r.name, r.age)) =
        [(1, "Анна", 25), (2, "Иван", 30), (3, "Ольга", 41)] :=
  ⟨by decide, by decide,
    (inserts_receive_increasing_ids (firstOpenWorld 0) ⟨"friends", "id", true, 1, []⟩
      [.call (.addFriend "Анна" 25), .call (.addFriend "Иван" 30), .requestDone true,
        .tick 5, .call (.addFriend "Ольга" 41), .requestDone true, .requestDone true]
      (by decide) rfl rfl rfl (by decide) (by decide)).imp
      (fun _ hx => ⟨hx.1, hx.2.1⟩)⟩

theorem mem_insertRecord_iff (r x : Friend) (l : List Friend) :
    x ∈ insertRecord r l ↔ x = r ∨ x ∈ l := by
  induction l with
  | nil => simp [insertRecord]
  | cons a t ih =>
    unfold insertRecord
    split
    · simp
    · simp only [List.mem_cons, ih]
      tauto

theorem insertRecord_sorted (r : Friend) (l : List Friend)
    (hl : (l.map (fun x => x.id)).Pairwise (· < ·)) (hne : ∀ x ∈ l, x.id ≠ r.id) :
    ((insertRecord r l).map (fun x => x.id)).Pairwise (· < ·) := by
  induction l with
  | nil => simp [insertRecord]
  | cons a t ih =>
    simp only [List.map_cons, List.pairwise_cons, List.mem_map, forall_exists_index, and_imp,
      forall_apply_eq_imp_iff₂] at hl
    unfold insertRecord
    split
    · rename_i hlt
      simp only [List.map_cons, List.pairwise_cons, List.mem_cons, List.mem_map,
        forall_eq_or_imp, forall_exists_index, and_imp, forall_apply_eq_imp_iff₂]
      refine ⟨⟨hlt, fun x hx => lt_trans hlt (hl.1 x hx)⟩, hl.1, hl.2⟩
    · rename_i hnlt
      have hane : a.id ≠ r.id := hne a (List.mem_cons_self _ _)
      have halt : a.id < r.id := by omega
      simp only [List.map_cons, List.pairwise_cons, List.mem_map, forall_exists_index, and_imp,
        forall_apply_eq_imp_iff₂]
      refine ⟨fun x hx => ?_, ih hl.2 (fun x hx => hne x (List.mem_cons_of_mem _ hx))⟩
      rcases (mem_insertRecord_iff r x t).mp hx with rfl | hx
      · exact halt
      · exact hl.1 x hx

theorem execute_schema (s s1 : ObjectStore) (op : Operation) (result : Result)
    (hx : s.execute op = .ok (s1, result)) :
    s1.name = s.name ∧ s1.autoIncrement = s.autoIncrement ∧ s1.keyPath = s.keyPath := by
  cases op with
  | add value =>
    rcases value with ⟨_ | k, name, age, added⟩
    · simp only [ObjectStore.execute] at hx
      split at hx
      · cases hx; exact ⟨rfl, rfl, rfl⟩
      · cases hx
    · simp only [ObjectStore.execute] at hx
      split at hx
      · cases hx
      · cases hx; exact ⟨rfl, rfl, rfl⟩
  | getAll => cases hx; exact ⟨rfl, rfl, rfl⟩
  | get k => cases hx; exact ⟨rfl, rfl, rfl⟩
  | delete k => cases hx; exact ⟨rfl, rfl, rfl⟩

theorem execute_storeOk (s s1 : ObjectStore) (op : Operation) (result : Result)
    (hx : s.execute op = .ok (s1, result)) (hok : StoreOk s) : StoreOk s1 := by
  obtain ⟨hsorted, hbelow⟩ := hok
  cases op with
  | add value =>
    rcases value with ⟨_ | k, name, age, added⟩
    · simp only [ObjectStore.execute] at hx
      split at hx
      · cases hx
        refine ⟨insertRecord_sorted _ _ hsorted (fun x hx => ?_), fun x hx => ?_⟩
        · have := hbelow x hx
          simp only
          omega
        · rcases (mem_insertRecord_iff _ x _).mp hx with rfl | hx
          · simp
          · have := hbelow x hx
            simp only
            omega
      · cases hx
    · simp only [ObjectStore.execute] at hx
      split at hx
      · cases hx
      · rename_i hany
        cases hx
        have habs : ∀ x ∈ s.records, x.id ≠ k := by
          intro x hx hk
          apply hany
          simp only [List.any_eq_true, beq_iff_eq]
          exact ⟨x, hx, hk⟩
        refine ⟨insertRecord_sorted _ _ hsorted habs, fun x hx => ?_⟩
        rcases (mem_insertRecord_iff _ x _).mp hx with rfl | hx
        · simp only
          split <;> omega
        · have := hbelow x hx
          simp only
          split <;> omega
  | getAll => cases hx; exact ⟨hsorted, hbelow⟩
  | get k => cases hx; exact ⟨hsorted, hbelow⟩
  | delete k =>
    cases hx
    refine ⟨?_, fun x hx => hbelow x (List.mem_filter.mp hx).1⟩
    exact List.Pairwise.sublist ((List.filter_sublist _).map _) hsorted

theorem find?_replaceStore_ne (n m : String) (s1 : ObjectStore) (l : List ObjectStore)
    (hn : s1.name = m) (hne : m ≠ n) :
    (replaceStore m s1 l).find? (fun t => t.name == n) = l.find? (fun t => t.name == n) := by
  induction l with
  | nil => rfl
  | cons a t ih =>
    by_cases ha : a.name = m
    · have hmn : (m == n) = false := by simp [hne]
      simp [replaceStore, ha, List.find?_cons, hn, hmn]
    · have hnm : ¬ n = m := fun h => hne h.symm
      by_cases hb : a.name = n
      · simp [replaceStore, ha, List.find?_cons, hb, hnm]
      · simp [replaceStore, ha, List.find?_cons, hb, ih]

theorem schema_setStore (db : Database) (m : String) (s s1 : ObjectStore) (op : Operation)
    (result : Result) (hs : db.store? m = some s) (hx : s.execute op = .ok (s1, result))
    (h : Schema db) : Schema (db.setStore m s1) := by
  obtain ⟨f, hf, ha, hok⟩ := h
  have hn := store?_name db m s hs
  obtain ⟨e1, e2, -⟩ := execute_schema s s1 op result hx
  by_cases hm : m = friends
  · subst hm
    have : f = s := Option.some.inj (hf.symm.trans hs)
    subst this
    exact ⟨s1, store?_setStore db friends f s1 hs (e1.trans hn), e2.trans ha,
      execute_storeOk f s1 op result hx hok⟩
  · refine ⟨f, ?_, ha, hok⟩
    have := find?_replaceStore_ne friends m s1 db.objectStores (e1.trans hn) hm
    simpa [Database.store?, Database.setStore] using this.trans hf

theorem worldInv_congr (w v : World) (hd : v.database = w.database)
    (hw : v.windowDb = w.windowDb) (h : WorldInv w) : WorldInv v := by
  unfold WorldInv at *
  rw [hd, hw]
  exact h

theorem deliver_database (cb : Option Callback) (result : Result) (before : Database)
    (w : World) :
    (deliver cb result before w).database = w.database ∨
      (deliver cb result before w).database = before := by
  cases cb with
  | none => exact Or.inl rfl
  | some c =>
    have h := (runCallback_frame c result w).2.2.1
    cases hc : runCallback c result w with
    | normal w1 =>
      left
      rw [hc] at h
      simpa [deliver, hc, Completion.world] using h
    | throw e w1 =>
      right
      simp [deliver, hc, World.uncaught]

theorem requestDone_database (ok : Bool) (w : World) :
    (requestDone ok w).database = w.database ∨
      ∃ m s s1 op result, w.database.store? m = some s ∧ s.execute op = .ok (s1, result) ∧
        (requestDone ok w).database = w.database.setStore m s1 := by
  unfold requestDone
  split
  · exact Or.inl rfl
  · rename_i r rest hp
    dsimp only
    split
    · split
      · rename_i db result hx
        rcases deliver_database r.onsuccess result w.database
          { w with pending := rest, database := db } with h | h
        · right
          simp only [Database.execute] at hx
          split at hx
          · cases hx
          · rename_i s hs
            split at hx
            · cases hx
            · rename_i s1 res hex
              cases hx
              exact ⟨r.store, s, s1, r.operation, result, hs, hex, h⟩
        · exact Or.inl h
      · rcases deliver_database r.onerror .undefined w.database { w with pending := rest }
          with h | h <;> exact Or.inl h
    · rcases deliver_database r.onerror .undefined w.database { w with pending := rest }
        with h | h <;> exact Or.inl h

theorem requestDone_inv (ok : Bool) (w : World) (h : WorldInv w) :
    WorldInv (requestDone ok w) := by
  have hw := (requestDone_frame ok w).1
  rcases requestDone_database ok w with hd | ⟨m, s, s1, op, result, hs, hx, hd⟩
  · exact worldInv_congr w _ hd hw h
  · rcases h with ⟨-, hempty, -⟩ | hsch
    · simp [Database.store?, hempty] at hs
    · right
      rw [hd]
      exact schema_setStore w.database m s s1 op result hs hx hsch

theorem openRequest_onsuccess_database (db : IDBDatabase) (w : World) :
    (openRequest_onsuccess db w).world.database = w.database := by
  unfold openRequest_onsuccess
  dsimp only
  have h1 := perform_frame (.addFriend "Анна" 25)
    { w.consoleLog "База данных открыта и готова к работе!" with windowDb := some db }
  simp only [Call.perform] at h1
  split
  · rename_i e w3 heq
    rw [heq] at h1
    simpa [Completion.world, World.consoleLog] using h1.2.2.1
  · rename_i w3 heq
    rw [heq] at h1
    have h2 := perform_frame (.addFriend "Иван" 30) w3
    simp only [Call.perform] at h2
    rw [h2.2.2.1]
    simpa [Completion.world, World.consoleLog] using h1.2.2.1

theorem storeOk_fresh (name keyPath : String) (autoIncrement : Bool) :
    StoreOk ⟨name, keyPath, autoIncrement, 1, []⟩ := by
  simp [StoreOk]

theorem openDone_inv (ok : Bool) (w : World) (h : WorldInv w) : WorldInv (openDone ok w) := by
  unfold openDone
  split
  · exact h
  · dsimp only
    split
    · exact worldInv_congr w _ rfl rfl h
    · split
      · rename_i hlt
        rcases h with ⟨hv, hempty, hnone⟩ | hsch
        · right
          have hcreate : openRequest_onupgradeneeded
              { w with openPending := false,
                       database := { w.database with version := schemaVersion } } =
              .normal ({ w with openPending := false,
                                database := ⟨schemaVersion, [⟨friends, "id", true, 1, []⟩]⟩ }.consoleLog
                "Таблица 'friends' создана!") := by
            simp [openRequest_onupgradeneeded, IDBDatabase.createObjectStore, Database.store?,
              hempty, World.consoleLog]
          simp only [hcreate]
          have hd := openRequest_onsuccess_database ⟨databaseName, schemaVersion⟩
            ({ w with openPending := false,
                      database := ⟨schemaVersion, [⟨friends, "id", true, 1, []⟩]⟩ }.consoleLog
              "Таблица 'friends' создана!")
          have hs := (settle_frame (openRequest_onsuccess ⟨databaseName, schemaVersion⟩
            ({ w with openPending := false,
                      database := ⟨schemaVersion, [⟨friends, "id", true, 1, []⟩]⟩ }.consoleLog
              "Таблица 'friends' создана!"))).2.2.1
          unfold Schema
          rw [hs, hd]
          exact ⟨⟨friends, "id", true, 1, []⟩, by simp [Database.store?, World.consoleLog], rfl,
            storeOk_fresh _ _ _⟩
        · obtain ⟨s, hs, ha, hok⟩ := hsch
          have hthrow : openRequest_onupgradeneeded
              { w with openPending := false,
                       database := { w.database with version := schemaVersion } } =
              .throw .ConstraintError
                { w with openPending := false,
                         database := { w.database with version := schemaVersion } } := by
            have hs1 : ({ w.database with version := schemaVersion } : Database).store? friends =
                some s := hs
            simp [openRequest_onupgradeneeded, IDBDatabase.createObjectStore, hs1]
          simp only [hthrow]
          exact Or.inr ⟨s, hs, ha, hok⟩
      · rename_i hge
        rcases h with ⟨hv, -, -⟩ | hsch
        · exfalso
          apply hge
          simp [hv, schemaVersion]
        · right
          have hd := openRequest_onsuccess_database ⟨databaseName, schemaVersion⟩
            { w with openPending := false }
          have hs := (settle_frame (openRequest_onsuccess ⟨databaseName, schemaVersion⟩
            { w with openPending := false })).2.2.1
          rw [hs, hd]
          exact hsch

theorem step_inv (e : Event) (w : World) (h : WorldInv w) : WorldInv (step e w) := by
  cases e with
  | openDone ok => exact openDone_inv ok w h
  | requestDone ok => exact requestDone_inv ok w h
  | call c =>
    have hf := step_call_frame c w
    exact worldInv_congr w _ hf.2.2.1 hf.1 h
  | tick ms => exact worldInv_congr w _ rfl rfl h

theorem run_inv (es : List Event) (w : World) (h : WorldInv w) : WorldInv (run es w) := by
  induction es generalizing w with
  | nil => exact h
  | cons e t ih => exact ih (step e w) (step_inv e w h)

/-- Every world the script reaches from a database that is new, or that already has
its store "friends", is such that an open connection finds the store "friends",
with its key generator and with pairwise distinct keys. -/
theorem reachable_open (db : Database) (clock : Nat) (es : List Event)
    (hdb : (db.version = 0 ∧ db.objectStores = []) ∨ Schema db)
    (hw : (run es (boot db clock)).windowDb.isSome = true) :
    ∃ s, Open (run es (boot db clock)) s ∧ (s.records.map (fun r => r.id)).Nodup := by
  have h0 : WorldInv (boot db clock) := by
    rcases hdb with ⟨hv, he⟩ | hs
    · exact Or.inl ⟨hv, he, rfl⟩
    · exact Or.inr hs
  rcases run_inv es _ h0 with ⟨-, -, hnone⟩ | ⟨s, hs, ha, hok⟩
  · rw [hnone] at hw
    cases hw
  · exact ⟨s, ⟨hw, hs, ha⟩, hok.1.imp (fun hlt => ne_of_lt hlt)⟩

end ScriptDB
